import Mathlib

/-!
Verification of the citation-tracking / indexing / citation-extraction core of
the multi-modal academic research system.

The Lean definitions below are a shallow embedding of the Python sources:

* `multi_modal_rag/orchestration/citation_tracker.py` (`CitationTracker`),
* `multi_modal_rag/indexing/opensearch_manager.py` (`OpenSearchManager`),
* `multi_modal_rag/orchestration/research_orchestrator.py`
  (`ResearchOrchestrator.extract_citations` / `citation_matches_source`).

Python dicts that hold registry maps are embedded as insertion-ordered
association lists; machine-level details (MD5, UTF-8, JSON text) are embedded
executably over `Nat` and `List Char`.
-/

namespace MD5

/-! ### MD5 (RFC 1321), used by `CitationTracker.generate_citation_id`

`generate_citation_id` computes `hashlib.md5(unique_string.encode()).hexdigest()[:12]`.
We embed MD5 executably: bytes are `Nat` values below 256, words are `Nat`
values below 2^32 with explicit `% 2^32` masking.
-/

def mask32 (x : Nat) : Nat := x % 4294967296

/-- Rotate a 32-bit word left by `s` bits (for `0 ≤ s < 32`). -/
def rotl32 (x s : Nat) : Nat := mask32 (x <<< s) ||| (x >>> (32 - s))

/-- Bitwise complement within 32 bits. -/
def not32 (x : Nat) : Nat := x ^^^ 0xffffffff

/-- The sine-derived round constants `K[i] = floor(abs(sin(i+1)) * 2^32)`. -/
def K : List Nat :=
  [0xd76aa478, 0xe8c7b756, 0x242070db, 0xc1bdceee,
   0xf57c0faf, 0x4787c62a, 0xa8304613, 0xfd469501,
   0x698098d8, 0x8b44f7af, 0xffff5bb1, 0x895cd7be,
   0x6b901122, 0xfd987193, 0xa679438e, 0x49b40821,
   0xf61e2562, 0xc040b340, 0x265e5a51, 0xe9b6c7aa,
   0xd62f105d, 0x02441453, 0xd8a1e681, 0xe7d3fbc8,
   0x21e1cde6, 0xc33707d6, 0xf4d50d87, 0x455a14ed,
   0xa9e3e905, 0xfcefa3f8, 0x676f02d9, 0x8d2a4c8a,
   0xfffa3942, 0x8771f681, 0x6d9d6122, 0xfde5380c,
   0xa4beea44, 0x4bdecfa9, 0xf6bb4b60, 0xbebfbc70,
   0x289b7ec6, 0xeaa127fa, 0xd4ef3085, 0x04881d05,
   0xd9d4d039, 0xe6db99e5, 0x1fa27cf8, 0xc4ac5665,
   0xf4292244, 0x432aff97, 0xab9423a7, 0xfc93a039,
   0x655b59c3, 0x8f0ccc92, 0xffeff47d, 0x85845dd1,
   0x6fa87e4f, 0xfe2ce6e0, 0xa3014314, 0x4e0811a1,
   0xf7537e82, 0xbd3af235, 0x2ad7d2bb, 0xeb86d391]

/-- Per-round left-rotation amounts. -/
def shifts : List Nat :=
  [7, 12, 17, 22, 7, 12, 17, 22, 7, 12, 17, 22, 7, 12, 17, 22,
   5,  9, 14, 20, 5,  9, 14, 20, 5,  9, 14, 20, 5,  9, 14, 20,
   4, 11, 16, 23, 4, 11, 16, 23, 4, 11, 16, 23, 4, 11, 16, 23,
   6, 10, 15, 21, 6, 10, 15, 21, 6, 10, 15, 21, 6, 10, 15, 21]

/-- The nonlinear function of round `i` applied to registers `b c d`. -/
def roundFn (i b c d : Nat) : Nat :=
  if i < 16 then (b &&& c) ||| (not32 b &&& d)
  else if i < 32 then (d &&& b) ||| (not32 d &&& c)
  else if i < 48 then b ^^^ c ^^^ d
  else c ^^^ (b ||| not32 d)

/-- The message-word index consumed at round `i`. -/
def wordIdx (i : Nat) : Nat :=
  if i < 16 then i
  else if i < 32 then (5 * i + 1) % 16
  else if i < 48 then (3 * i + 5) % 16
  else (7 * i) % 16

/-- One MD5 round: rotate the register file and mix in one message word. -/
def step (M : Nat → Nat) (st : Nat × Nat × Nat × Nat) (i : Nat) :
    Nat × Nat × Nat × Nat :=
  let a := st.1
  let b := st.2.1
  let c := st.2.2.1
  let d := st.2.2.2
  let f := mask32 (roundFn i b c d + a + K.getD i 0 + M (wordIdx i))
  (d, mask32 (b + rotl32 f (shifts.getD i 0)), b, c)

/-- Little-endian 32-bit word `j` of a 64-byte block. -/
def blockWord (block : List Nat) (j : Nat) : Nat :=
  block.getD (4 * j) 0 + 256 * block.getD (4 * j + 1) 0 +
    65536 * block.getD (4 * j + 2) 0 + 16777216 * block.getD (4 * j + 3) 0

/-- Compress one 64-byte block into the running state. -/
def compress (h : Nat × Nat × Nat × Nat) (block : List Nat) :
    Nat × Nat × Nat × Nat :=
  let r := (List.range 64).foldl (step (blockWord block)) h
  (mask32 (h.1 + r.1), mask32 (h.2.1 + r.2.1),
   mask32 (h.2.2.1 + r.2.2.1), mask32 (h.2.2.2 + r.2.2.2))

/-- Split a byte sequence into consecutive 64-byte blocks. -/
def chunks64 : List Nat → List (List Nat)
  | [] => []
  | b :: bs => ((b :: bs).take 64) :: chunks64 ((b :: bs).drop 64)
termination_by l => l.length
decreasing_by simp only [List.length_drop, List.length_cons]; omega

/-- MD5 padding: a 0x80 byte, zeros to 56 mod 64, then the bit length as
eight little-endian bytes. -/
def pad (msg : List Nat) : List Nat :=
  let z := (119 - msg.length % 64) % 64
  let bits := (msg.length * 8) % 18446744073709551616
  msg ++ (128 :: List.replicate z 0) ++
    ((List.range 8).map fun k => bits / 256 ^ k % 256)

/-- UTF-8 encoding of one character (scalar values only, as in Lean `Char`). -/
def utf8Char (c : Char) : List Nat :=
  let n := c.toNat
  if n < 128 then [n]
  else if n < 2048 then [192 + n / 64, 128 + n % 64]
  else if n < 65536 then [224 + n / 4096, 128 + n / 64 % 64, 128 + n % 64]
  else [240 + n / 262144, 128 + n / 4096 % 64, 128 + n / 64 % 64, 128 + n % 64]

/-- UTF-8 bytes of a string, mirroring Python `str.encode()`. -/
def utf8Bytes (s : String) : List Nat := s.toList.flatMap utf8Char

/-- Lowercase hexadecimal digit for `n < 16`. -/
def hexDigitChar (n : Nat) : Char :=
  if n < 10 then Char.ofNat (48 + n) else Char.ofNat (87 + n)

/-- Two lowercase hex characters of a byte. -/
def byteHex (b : Nat) : List Char := [hexDigitChar (b / 16), hexDigitChar (b % 16)]

/-- Little-endian byte decomposition of a 32-bit word. -/
def word32Bytes (w : Nat) : List Nat :=
  [w % 256, w / 256 % 256, w / 65536 % 256, w / 16777216 % 256]

/-- The MD5 digest of a byte sequence, as 16 bytes. -/
def digestBytes (msg : List Nat) : List Nat :=
  let h := (chunks64 (pad msg)).foldl compress
    (0x67452301, 0xefcdab89, 0x98badcfe, 0x10325476)
  word32Bytes h.1 ++ word32Bytes h.2.1 ++ word32Bytes h.2.2.1 ++ word32Bytes h.2.2.2

/-- Python's `hashlib.md5(s.encode()).hexdigest()`. -/
def md5Hex (s : String) : String :=
  String.mk ((digestBytes (utf8Bytes s)).flatMap byteHex)

end MD5

attribute [irreducible] MD5.md5Hex


namespace CitationTracker

/-! ### CitationTracker (`multi_modal_rag/orchestration/citation_tracker.py`)

The registry `self.citations` is a JSON-shaped dict with exactly the keys
`papers`, `videos`, `podcasts` (each a dict keyed by citation id) and
`usage_history` (a list). Python dicts preserve insertion order, so the maps
are embedded as insertion-ordered association lists. Registry entries are
dicts whose `authors` / `url` / `first_used` keys are read back with
`.get(...)` defaults (a hand-written store file may omit them), so those
fields are `Option`-valued; `title` and `use_count` are accessed directly
(`paper['title']`) and are plain fields. `datetime.now().isoformat()` is
passed in explicitly as the `now` argument. -/

/-- One element of an entry's `queries` list: `{'query': ..., 'timestamp': ...}`. -/
structure UsageRecord where
  query : String
  timestamp : String
deriving DecidableEq, Repr

/-- One registry entry, as built by `add_citation` (and possibly read back
from storage, where the `.get`-accessed keys may be absent). -/
structure CitationEntry where
  title : String
  authors : Option (List String)
  url : Option String
  first_used : Option String
  use_count : Nat
  queries : List UsageRecord
deriving DecidableEq, Repr

/-- One element of the global `usage_history` list. -/
structure UsageEvent where
  citation_id : String
  content_type : String
  query : String
  timestamp : String
deriving DecidableEq, Repr

/-- A citation-id-keyed dict, in insertion order. -/
abbrev CitationMap := List (String × CitationEntry)

/-- The whole `self.citations` structure. -/
structure Registry where
  papers : CitationMap
  videos : CitationMap
  podcasts : CitationMap
  usage_history : List UsageEvent
deriving DecidableEq, Repr

/-- `load_citations` on a missing storage file: the empty registry. -/
def emptyRegistry : Registry := ⟨[], [], [], []⟩

/-- The `citation` argument of `add_citation`: a dict with `content_type`,
`title`, `authors`, `url`. The code reads `authors` and `url` with `.get`
defaults `[]` and `''`, so an absent key coincides with those defaults and
the fields are plain. -/
structure Citation where
  content_type : String
  title : String
  authors : List String
  url : String
deriving DecidableEq, Repr

/-- Dict lookup `citation_id in m` / `m[citation_id]` on an association list. -/
def lookupId : CitationMap → String → Option CitationEntry
  | [], _ => none
  | (k, v) :: rest, cid => if k = cid then some v else lookupId rest cid

/-- Dict mutation `m[cid] = f(m[cid])`: replace in place, keeping insertion order. -/
def updateId : CitationMap → String → (CitationEntry → CitationEntry) → CitationMap
  | [], _, _ => []
  | (k, v) :: rest, cid, f =>
      if k = cid then (k, f v) :: rest else (k, v) :: updateId rest cid f

/-- `generate_citation_id`: `hashlib.md5((title + url).encode()).hexdigest()[:12]`,
with `title` and `url` read via `.get(..., '')`. -/
def generate_citation_id (citation : Citation) : String :=
  (MD5.md5Hex (citation.title ++ citation.url)).take 12

attribute [irreducible] generate_citation_id

/-- The dict access `self.citations[key]` restricted to the map-valued keys.
The fourth key of the dict, `usage_history`, holds a list and is unreachable
from `add_citation`: the subscript there is `content_type ++ "s"`, which ends
in `'s'` while `"usage_history"` ends in `'y'`. Any other key raises `KeyError`,
embedded as `none`. -/
def registryMap (reg : Registry) (key : String) : Option CitationMap :=
  if key = "papers" then some reg.papers
  else if key = "videos" then some reg.videos
  else if key = "podcasts" then some reg.podcasts
  else none

/-- Write back the map stored under `key` (the mutation of `self.citations[key]`). -/
def setRegistryMap (reg : Registry) (key : String) (m : CitationMap) : Registry :=
  if key = "papers" then { reg with papers := m }
  else if key = "videos" then { reg with videos := m }
  else if key = "podcasts" then { reg with podcasts := m }
  else reg

/-- The fresh entry created on first sight of a citation id. -/
def freshEntry (citation : Citation) (now : String) : CitationEntry :=
  { title := citation.title, authors := some citation.authors,
    url := some citation.url, first_used := some now,
    use_count := 0, queries := [] }

/-- `add_citation(citation, query)`. Reads the content-type map (raising
`KeyError` for an unknown `content_type`), inserts a fresh entry when the id
is new, then increments `use_count`, appends a usage record, and appends to
the global history. The Python method then calls `save_citations`; the file
write is `dumps` of the returned registry (see `export_bibliography`). -/
def add_citation (reg : Registry) (citation : Citation) (query now : String) :
    Except String Registry :=
  let content_type := citation.content_type
  let citation_id := generate_citation_id citation
  match registryMap reg (content_type ++ "s") with
  | none => Except.error ("KeyError: " ++ content_type ++ "s")
  | some m =>
      let m1 := if (lookupId m citation_id).isSome then m
                else m ++ [(citation_id, freshEntry citation now)]
      let m2 := updateId m1 citation_id fun e =>
        { e with use_count := e.use_count + 1,
                 queries := e.queries ++ [⟨query, now⟩] }
      let reg1 := setRegistryMap reg (content_type ++ "s") m2
      Except.ok { reg1 with usage_history := reg1.usage_history ++
        [⟨citation_id, content_type, query, now⟩] }

/-- The caller-visible state transition of one `add_citation` call: on the
`KeyError` branch the exception propagates before any mutation, so the
registry (and the persisted store) is exactly what it was. -/
def addStep (reg : Registry) (citation : Citation) (query now : String) : Registry :=
  match add_citation reg citation query now with
  | Except.ok r => r
  | Except.error _ => reg

/-- One BibTeX block of `export_bibtex` (the f-string in the loop body). -/
def bibtexBlock (cid : String) (paper : CitationEntry) : String :=
  "@article\x7b" ++ cid ++ ",\n    title=\x7b" ++ paper.title ++
    "\x7d,\n    author=\x7b" ++
    String.intercalate " and " (paper.authors.getD ["Unknown"]) ++
    "\x7d,\n    year=\x7b" ++ (paper.first_used.getD "").take 4 ++
    "\x7d,\n    url=\x7b" ++ paper.url.getD "" ++ "\x7d\n\x7d"

/-- `export_bibtex`: one `@article` block per entry of `self.citations['papers']`,
joined by blank lines. -/
def export_bibtex (reg : Registry) : String :=
  String.intercalate "\n\n" (reg.papers.map fun p => bibtexBlock p.1 p.2)

/-- One line of `export_apa`. -/
def apaLine (paper : CitationEntry) : String :=
  let authors := paper.authors.getD ["Unknown"]
  let year4 := (paper.first_used.getD "").take 4
  let year := if year4 = "" then "n.d." else year4
  let author_str :=
    match authors with
    | [] => "Unknown"
    | [a] => a
    | a :: _ :: _ => a ++ " et al."
  author_str ++ " (" ++ year ++ "). " ++ paper.title ++ ". Retrieved from " ++
    paper.url.getD "N/A"

/-- `export_apa`: one line per paper, sorted lexicographically (Python `sorted`,
stable, code-point order — matched by Lean string order). -/
def export_apa (reg : Registry) : String :=
  String.intercalate "\n"
    (((reg.papers.map fun p => apaLine p.2).mergeSort fun a b => decide (a ≤ b)))

end CitationTracker

namespace OpenSearchManager

/-! ### OpenSearchManager (`multi_modal_rag/indexing/opensearch_manager.py`)

Documents are open dicts read with `.get(..., default)`, embedded as a record
of the schema fields with `Option` for keys that may be absent. The embedding
vector produced by `SentenceTransformer.encode(...).tolist()` is a list of
floats; the vector type is a parameter `α` and the model a parameter
`encode : String → α`, so every statement holds for the real encoder.
`self.connected` is the `connected` argument; the OpenSearch client and the
`opensearchpy.helpers.bulk` call are abstracted by the `bulkHelper` argument
(`helpers.bulk(client, actions, stats_only=True)` either returns a
`(success, failed)` pair or raises — with the library default
`raise_on_error=True` it raises `BulkIndexError` whenever any document in the
batch is rejected; any raise lands in the `except` branch). -/

/-- A document dict, over an abstract embedding-vector type `α`. -/
structure Document (α : Type) where
  content_type : Option String
  title : Option String
  abstract : Option String
  content : Option String
  transcript : Option String
  authors : Option (List String)
  url : Option String
  publication_date : Option String
  embedding : Option α
deriving DecidableEq, Repr

/-- The canonical text window embedded at index time:
`f"{doc.get('title','')} {doc.get('abstract','')} {doc.get('content','')[:1000]}"`. -/
def searchable_text (doc : Document α) : String :=
  (doc.title.getD "") ++ " " ++ (doc.abstract.getD "") ++ " " ++
    (doc.content.getD "").take 1000

/-- The document as mutated by `document['embedding'] = embedding`. -/
def withEmbedding (encode : String → α) (doc : Document α) : Document α :=
  { doc with embedding := some (encode (searchable_text doc)) }

/-- `index_document`: `None` when not connected; otherwise writes the document
with its regenerated embedding. The value written to the backend is returned
(the Python method returns the backend's acknowledgement for it; on any raise
it returns `None`). -/
def index_document (connected : Bool) (encode : String → α)
    (index_name : String) (document : Document α) : Option (Document α) :=
  if connected = false then none
  else some (withEmbedding encode document)

/-- The outcome of the `helpers.bulk(client, actions, stats_only=True)` call. -/
inductive BulkOutcome where
  | raised
  | counts (succeeded failed : Nat)
deriving DecidableEq, Repr

/-- The `actions` list: one action per input document, in input order, with the
embedding regenerated (the `_index`/`_source` wrapper is elided). -/
def bulkActions (encode : String → α) (documents : List (Document α)) :
    List (Document α) :=
  documents.map (withEmbedding encode)

/-- `bulk_index`: `None` when not connected; otherwise builds the actions,
runs the bulk helper, and returns the success count alone — the `failed`
count is only logged. A raise from the helper is caught and yields `None`. -/
def bulk_index (connected : Bool) (encode : String → α)
    (bulkHelper : List (Document α) → BulkOutcome) (index_name : String)
    (documents : List (Document α)) : Option Nat :=
  if connected = false then none
  else
    match bulkHelper (bulkActions encode documents) with
    | BulkOutcome.raised => none
    | BulkOutcome.counts succeeded _failed => some succeeded

end OpenSearchManager

namespace ResearchOrchestrator

/-! ### Citation extraction (`multi_modal_rag/orchestration/research_orchestrator.py`)

`extract_citations` runs `re.findall` for three patterns over the generated
response and resolves each match against the search results. A match of the
two-group pattern `\[([^,\]]+),\s*(\d{4})\]` is a 2-tuple of strings; a match
of the one-group patterns `\[Video:\s*([^\]]+)\]` / `\[Podcast:\s*([^\]]+)\]`
is a plain string — so `citation_match[0]` is the author group for the former
but the FIRST CHARACTER of the label for the latter. The regex scanners below
embed `re.findall` for exactly these three patterns: left-to-right,
non-overlapping, with the only live backtracking point (`\s*` before
`[^\]]+`) resolved as the regex engine does. `\s` and `\d` are modelled at
their ASCII subsets (the six ASCII whitespace characters and `0-9`). -/

/-- A source document dict as stored in a search hit (`hit['_source']`), with
the fields `citation_matches_source` and `extract_citations` read; `title`,
`authors`, `url` are read with `.get` defaults `''` / `[]` / `''`, so absent
keys coincide with the defaults. -/
structure Source where
  content_type : String
  title : String
  authors : List String
  url : String
deriving DecidableEq, Repr

/-- One hybrid-search result `{'score': ..., 'source': ...}`; the score (a
backend float) is an opaque parameter `σ`. -/
structure SearchResult (σ : Type) where
  score : σ
  source : Source
deriving DecidableEq, Repr

/-- A value in the list returned by `re.findall`: a tuple for a pattern with
two groups, a bare string for a pattern with one group. -/
inductive PyMatch where
  | tuple2 (a b : String)
  | str1 (s : String)
deriving DecidableEq, Repr

/-- The Python subscript `citation_match[0]`: first tuple component, or the
first character of a string (as a 1-character string; the matched groups are
never empty, so the `IndexError` case does not arise). -/
def pyIndex0 : PyMatch → String
  | PyMatch.tuple2 a _ => a
  | PyMatch.str1 s => s.take 1

/-- Python `needle in hay` on lists of characters: contiguous substring. -/
def strInL : List Char → List Char → Bool
  | needle, [] => needle.isEmpty
  | needle, c :: t => needle.isPrefixOf (c :: t) || strInL needle t

/-- Python `needle in hay` on strings. -/
def strIn (needle hay : String) : Bool := strInL needle.toList hay.toList

/-- `citation_matches_source(citation_match, source)`. -/
def citation_matches_source (citation_match : PyMatch) (source : Source) : Bool :=
  if source.content_type = "paper" then
    match source.authors with
    | [] => false
    | a0 :: _ => strIn (pyIndex0 citation_match) a0
  else if source.content_type = "video" then
    strIn (pyIndex0 citation_match) source.title
  else if source.content_type = "podcast" then
    strIn (pyIndex0 citation_match) source.title
  else false

/-- The ASCII whitespace characters matched by the regex class `\s`. -/
def isPySpace (c : Char) : Bool :=
  c = ' ' || c = '\t' || c = '\n' || c = Char.ofNat 11 || c = Char.ofNat 12 || c = '\r'

/-- Characters allowed in the group `[^,\]]`. -/
def notComRB (c : Char) : Bool := !(c = ',' || c = ']')

/-- Characters allowed in the group `[^\]]`. -/
def notRB (c : Char) : Bool := !(c = ']')

/-- Match `\[([^,\]]+),\s*(\d{4})\]` at the head of the input; on success
return the two groups and the input after the match. The group `[^,\]]+` must
run exactly to the first `,`/`]` (its characters cannot include them), `\s*`
and `\d` are disjoint so the star is committed, and the year is exactly four
digits followed by `]`. -/
def matchAuthorYear : List Char → Option ((String × String) × List Char)
  | '[' :: cs =>
      let g1 := cs.takeWhile notComRB
      if g1.isEmpty then none
      else
        match cs.dropWhile notComRB with
        | ',' :: r2 =>
            match r2.dropWhile isPySpace with
            | d1 :: d2 :: d3 :: d4 :: ']' :: rest =>
                if d1.isDigit && d2.isDigit && d3.isDigit && d4.isDigit then
                  some ((String.mk g1, String.mk [d1, d2, d3, d4]), rest)
                else none
            | _ => none
        | _ => none
  | _ => none

/-- Consume a literal prefix (the fixed part of a pattern). -/
def stripTag : List Char → List Char → Option (List Char)
  | [], cs => some cs
  | _ :: _, [] => none
  | t :: ts, c :: cs => if c = t then stripTag ts cs else none

/-- Match `tag ++ \s*([^\]]+)\]` at the head of the input (with `tag` for
example `[Video:`). The region up to the first `]` is split between the
greedy `\s*` and the group `[^\]]+`; backtracking leaves the group at least
one character, so `\s*` takes `min(whitespace run, region length - 1)`. -/
def matchTagged (tag : List Char) (cs : List Char) : Option (String × List Char) :=
  match stripTag tag cs with
  | none => none
  | some cs1 =>
      let seg := cs1.takeWhile notRB
      match cs1.dropWhile notRB with
      | ']' :: rest =>
          if seg.isEmpty then none
          else
            some (String.mk (seg.drop (min (seg.takeWhile isPySpace).length
              (seg.length - 1))), rest)
      | _ => none

theorem length_dropWhile_le' (p : Char → Bool) :
    ∀ l : List Char, (l.dropWhile p).length ≤ l.length
  | [] => Nat.le_refl _
  | c :: t => by
      by_cases hp : p c
      · simp only [List.dropWhile, hp]
        have := length_dropWhile_le' p t
        simp only [List.length_cons]
        omega
      · simp [List.dropWhile, hp]

theorem stripTag_length {tag cs cs1 : List Char} (h : stripTag tag cs = some cs1) :
    cs1.length + tag.length = cs.length := by
  induction tag generalizing cs with
  | nil =>
      simp only [stripTag, Option.some.injEq] at h
      subst h
      simp
  | cons t ts ih =>
      match cs with
      | [] => simp [stripTag] at h
      | c :: cs0 =>
          simp only [stripTag] at h
          split at h
          · have := ih h
            simp only [List.length_cons]
            omega
          · exact absurd h (by simp)

theorem matchAuthorYear_shrink {cs rest : List Char} {t : String × String}
    (h : matchAuthorYear cs = some (t, rest)) : rest.length < cs.length := by
  rw [matchAuthorYear.eq_def] at h
  split at h
  case _ cs0 =>
      dsimp only at h
      split at h
      · exact absurd h (by simp)
      · split at h
        case _ r2 heq =>
            have hr2 : r2.length < cs0.length := by
              have h1 := length_dropWhile_le' notComRB cs0
              rw [heq] at h1
              simp only [List.length_cons] at h1
              omega
            split at h
            case _ d1 d2 d3 d4 rest0 heq2 =>
                have hr3 : rest0.length + 5 ≤ r2.length := by
                  have h2 := length_dropWhile_le' isPySpace r2
                  rw [heq2] at h2
                  simp only [List.length_cons] at h2
                  omega
                split at h
                · simp only [Option.some.injEq, Prod.mk.injEq] at h
                  obtain ⟨-, rfl⟩ := h
                  simp only [List.length_cons]
                  omega
                · exact absurd h (by simp)
            case _ => exact absurd h (by simp)
        case _ => exact absurd h (by simp)
  case _ => exact absurd h (by simp)

theorem matchTagged_shrink {tag cs rest : List Char} {s : String}
    (h : matchTagged tag cs = some (s, rest)) : rest.length < cs.length := by
  rw [matchTagged.eq_def] at h
  split at h
  · exact absurd h (by simp)
  case _ cs1 heq =>
      have hlen : cs1.length ≤ cs.length := by
        have := stripTag_length heq
        omega
      dsimp only at h
      split at h
      case _ rest0 heq2 =>
          have hr : rest0.length < cs1.length := by
            have h1 := length_dropWhile_le' notRB cs1
            rw [heq2] at h1
            simp only [List.length_cons] at h1
            omega
          split at h
          · exact absurd h (by simp)
          · simp only [Option.some.injEq, Prod.mk.injEq] at h
            obtain ⟨-, rfl⟩ := h
            omega
      case _ => exact absurd h (by simp)

/-- The embedding of `re.findall(r'\[([^,\]]+),\s*(\d{4})\]', text)`:
left-to-right scan, restarting after each non-overlapping match. -/
def findAY : List Char → List (String × String)
  | [] => []
  | c :: cs =>
      match h : matchAuthorYear (c :: cs) with
      | some (t, rest) => t :: findAY rest
      | none => findAY cs
termination_by l => l.length
decreasing_by
  · exact matchAuthorYear_shrink h
  · simp

/-- The embedding of `re.findall` for the `[Video: ...]` / `[Podcast: ...]`
patterns, parameterised by the literal head of the pattern. -/
def findTagged (tag : List Char) : List Char → List String
  | [] => []
  | c :: cs =>
      match h : matchTagged tag (c :: cs) with
      | some (s, rest) => s :: findTagged tag rest
      | none => findTagged tag cs
termination_by l => l.length
decreasing_by
  · exact matchTagged_shrink h
  · simp

/-- One entry of the returned citations list. -/
structure CitationOut where
  citation_text : PyMatch
  source : Source
  content_type : String
  url : String
  title : String
deriving DecidableEq, Repr

/-- The dict appended for a resolved marker. -/
def mkCitation (m : PyMatch) (source : Source) : CitationOut :=
  ⟨m, source, source.content_type, source.url, source.title⟩

/-- The inner `for result in search_results: ... break` loop for one marker:
the first matching result (in supplied order) yields the single appended
entry; no match yields nothing. -/
def matchResults (m : PyMatch) : List (SearchResult σ) → List CitationOut
  | [] => []
  | r :: rs =>
      if citation_matches_source m r.source then [mkCitation m r.source]
      else matchResults m rs

/-- All `re.findall` matches, in pattern order (papers, then videos, then
podcasts), as the loop over `citation_patterns` produces them. -/
def allMarkers (response : String) : List PyMatch :=
  ((findAY response.toList).map fun p => PyMatch.tuple2 p.1 p.2) ++
    ((findTagged "[Video:".toList response.toList).map PyMatch.str1) ++
    ((findTagged "[Podcast:".toList response.toList).map PyMatch.str1)

/-- `extract_citations(response, search_results)`. -/
def extract_citations (response : String) (search_results : List (SearchResult σ)) :
    List CitationOut :=
  (allMarkers response).flatMap fun m => matchResults m search_results

end ResearchOrchestrator

namespace PyJson

/-! ### The JSON codec used by the citation store

`save_citations` and the `json` branch of `export_bibliography` serialize the
registry with `json.dumps(self.citations, indent=2)` (defaults:
`ensure_ascii=True`, separators `(',', ': ')` when indented). `dumps` below
embeds that encoder for the value shapes a registry contains (strings,
non-negative integers, arrays, string-keyed objects in insertion order);
`loads` embeds `json.loads` on the same shapes (re-parsing combines the
`\uXXXX` surrogate pairs the encoder emits; lone surrogates, which `dumps`
never emits, are rejected since they are not scalar values). -/

/-- JSON values as the registry uses them. Objects keep key order (Python
dicts preserve insertion order, and `json.loads` rebuilds in document order). -/
inductive Json where
  | str (s : String)
  | num (n : Nat)
  | arr (items : List Json)
  | obj (members : List (String × Json))
deriving Repr

/-- The characters `\x7b` and `\x7d` (object delimiters). -/
def lb : Char := Char.ofNat 123

def rb : Char := Char.ofNat 125

/-- Lowercase hexadecimal digit, as `'\\u%04x' % n` prints them. -/
def hexDigitLower (n : Nat) : Char :=
  if n < 10 then Char.ofNat (48 + n) else Char.ofNat (87 + n)

/-- The four hex digits of `n < 0x10000`, most significant first. -/
def hex4 (n : Nat) : List Char :=
  [hexDigitLower (n / 4096 % 16), hexDigitLower (n / 256 % 16),
   hexDigitLower (n / 16 % 16), hexDigitLower (n % 16)]

/-- One character as `json.dumps` escapes it with `ensure_ascii=True`: the
short escapes of `ESCAPE_DCT`, printable ASCII verbatim, and everything else
(anything outside `0x20..0x7e`) as `\uXXXX`, astral characters as a
surrogate pair. -/
def escapeChar (c : Char) : List Char :=
  if c = '"' then ['\\', '"']
  else if c = '\\' then ['\\', '\\']
  else if c.toNat = 8 then ['\\', 'b']
  else if c.toNat = 12 then ['\\', 'f']
  else if c = '\n' then ['\\', 'n']
  else if c = '\r' then ['\\', 'r']
  else if c = '\t' then ['\\', 't']
  else if 32 ≤ c.toNat ∧ c.toNat ≤ 126 then [c]
  else if c.toNat < 65536 then '\\' :: 'u' :: hex4 c.toNat
  else ('\\' :: 'u' :: hex4 (55296 + (c.toNat - 65536) / 1024)) ++
    ('\\' :: 'u' :: hex4 (56320 + (c.toNat - 65536) % 1024))

/-- A string literal with delimiters, as the encoder prints it. -/
def encodeStr (s : String) : List Char :=
  '"' :: (s.toList.flatMap escapeChar ++ ['"'])

/-- Decimal digits of `n`, most significant first (`repr` of a Python int). -/
def natChars (n : Nat) : List Char :=
  if n < 10 then [Char.ofNat (48 + n)]
  else natChars (n / 10) ++ [Char.ofNat (48 + n % 10)]
termination_by n
decreasing_by omega

/-- The newline-plus-indentation separator at nesting level `lvl`
(`indent=2` puts every item on its own line, indented two spaces a level). -/
def nlind (lvl : Nat) : List Char := '\n' :: List.replicate (2 * lvl) ' '

mutual

/-- The text of one value at nesting level `lvl`. -/
def dumpVal : Nat → Json → List Char
  | _, Json.str s => encodeStr s
  | _, Json.num n => natChars n
  | _, Json.arr [] => ['[', ']']
  | lvl, Json.arr (x :: xs) =>
      '[' :: (dumpItems (lvl + 1) x xs ++ (nlind lvl ++ [']']))
  | _, Json.obj [] => [lb, rb]
  | lvl, Json.obj (m :: ms) =>
      lb :: (dumpMembers (lvl + 1) m ms ++ (nlind lvl ++ [rb]))
termination_by lvl j => sizeOf j
decreasing_by all_goals (simp_wf; try omega)

/-- Array items, each on its own indented line, comma separated. -/
def dumpItems : Nat → Json → List Json → List Char
  | lvl, x, [] => nlind lvl ++ dumpVal lvl x
  | lvl, x, y :: ys => nlind lvl ++ dumpVal lvl x ++ (',' :: dumpItems lvl y ys)
termination_by lvl x xs => 1 + sizeOf x + sizeOf xs
decreasing_by all_goals (simp_wf; try omega)

/-- Object members, each on its own indented line, with the `": "` key
separator, comma separated. -/
def dumpMembers : Nat → String × Json → List (String × Json) → List Char
  | lvl, (k, v), [] => nlind lvl ++ encodeStr k ++ (':' :: ' ' :: dumpVal lvl v)
  | lvl, (k, v), m2 :: ms =>
      nlind lvl ++ encodeStr k ++ (':' :: ' ' :: dumpVal lvl v) ++
        (',' :: dumpMembers lvl m2 ms)
termination_by lvl m ms => 1 + sizeOf m + sizeOf ms
decreasing_by all_goals (simp_wf; try omega)

end

/-- `json.dumps(value, indent=2)`. -/
def dumps (j : Json) : String := String.mk (dumpVal 0 j)

/-- JSON inter-token whitespace. -/
def isJsonWs (c : Char) : Bool := c = ' ' || c = '\t' || c = '\n' || c = '\r'

/-- Skip inter-token whitespace. -/
def skipWs (cs : List Char) : List Char := cs.dropWhile isJsonWs

/-- The value of one hex digit, either case. -/
def hexVal? (c : Char) : Option Nat :=
  if 48 ≤ c.toNat ∧ c.toNat ≤ 57 then some (c.toNat - 48)
  else if 97 ≤ c.toNat ∧ c.toNat ≤ 102 then some (c.toNat - 87)
  else if 65 ≤ c.toNat ∧ c.toNat ≤ 70 then some (c.toNat - 55)
  else none

/-- The single-character escapes `json.loads` accepts. -/
def unescape? (c : Char) : Option Char :=
  if c = '"' then some '"'
  else if c = '\\' then some '\\'
  else if c = '/' then some '/'
  else if c = 'b' then some (Char.ofNat 8)
  else if c = 'f' then some (Char.ofNat 12)
  else if c = 'n' then some '\n'
  else if c = 'r' then some '\r'
  else if c = 't' then some '\t'
  else none

/-- Read four hex digits, returning their value and the rest of the input. -/
def readHex4 : List Char → Option (Nat × List Char)
  | h1 :: h2 :: h3 :: h4 :: cs =>
      match hexVal? h1, hexVal? h2, hexVal? h3, hexVal? h4 with
      | some v1, some v2, some v3, some v4 =>
          some (((v1 * 16 + v2) * 16 + v3) * 16 + v4, cs)
      | _, _, _, _ => none
  | _ => none

theorem readHex4_length {cs cs2 : List Char} {n : Nat}
    (h : readHex4 cs = some (n, cs2)) : cs2.length + 4 = cs.length := by
  match cs with
  | [] => simp [readHex4] at h
  | [_] => simp [readHex4] at h
  | [_, _] => simp [readHex4] at h
  | [_, _, _] => simp [readHex4] at h
  | h1 :: h2 :: h3 :: h4 :: cs =>
      simp only [readHex4] at h
      split at h
      · simp only [Option.some.injEq, Prod.mk.injEq] at h
        obtain ⟨-, rfl⟩ := h
        simp only [List.length_cons]
        try omega
      · exact absurd h (by simp)

/-- Parse a string body after the opening quote, unescaping as `json.loads`
does (surrogate pairs recombine into one scalar value). -/
def parseStrBody (acc : List Char) : List Char → Option (String × List Char)
  | [] => none
  | c :: cs =>
      if c = '"' then some (String.mk acc.reverse, cs)
      else if c = '\\' then
        match cs with
        | [] => none
        | e :: cs2 =>
            if e = 'u' then
              match h2 : readHex4 cs2 with
              | none => none
              | some (n, cs3) =>
                  if 55296 ≤ n ∧ n < 56320 then
                    match cs3 with
                    | b1 :: b2 :: cs4 =>
                        if b1 = '\\' ∧ b2 = 'u' then
                          match h4 : readHex4 cs4 with
                          | none => none
                          | some (m, cs5) =>
                              if 56320 ≤ m ∧ m < 57344 then
                                parseStrBody (Char.ofNat
                                  (65536 + (n - 55296) * 1024 + (m - 56320)) :: acc) cs5
                              else none
                        else none
                    | _ => none
                  else if 56320 ≤ n ∧ n < 57344 then none
                  else parseStrBody (Char.ofNat n :: acc) cs3
            else
              match unescape? e with
              | some c2 => parseStrBody (c2 :: acc) cs2
              | none => none
      else parseStrBody (c :: acc) cs
termination_by cs => cs.length
decreasing_by
  · have := readHex4_length h2
    have := readHex4_length h4
    simp only [List.length_cons] at *
    omega
  · have := readHex4_length h2
    simp only [List.length_cons] at *
    omega
  · simp only [List.length_cons]
    omega
  · simp only [List.length_cons]
    omega

/-- Parse a run of decimal digits (the only number shape the registry holds). -/
def parseNat (cs : List Char) : Option (Nat × List Char) :=
  let ds := cs.takeWhile Char.isDigit
  if ds.isEmpty then none
  else some (ds.foldl (fun a c => a * 10 + (c.toNat - 48)) 0, cs.dropWhile Char.isDigit)

mutual

/-- Parse one value (fuel-indexed for totality; `loads` supplies enough). -/
def parseVal : Nat → List Char → Option (Json × List Char)
  | 0, _ => none
  | fuel + 1, cs =>
      match skipWs cs with
      | [] => none
      | c :: cs1 =>
          if c = '"' then
            match parseStrBody [] cs1 with
            | some (s, r) => some (Json.str s, r)
            | none => none
          else if c = '[' then
            match skipWs cs1 with
            | ']' :: r => some (Json.arr [], r)
            | cs2 =>
                match parseItems fuel cs2 with
                | some (xs, r) => some (Json.arr xs, r)
                | none => none
          else if c = lb then
            match skipWs cs1 with
            | c2 :: r2 =>
                if c2 = rb then some (Json.obj [], r2)
                else
                  match parseMembers fuel (c2 :: r2) with
                  | some (ms, r) => some (Json.obj ms, r)
                  | none => none
            | [] => none
          else if c.isDigit then
            match parseNat (c :: cs1) with
            | some (n, r) => some (Json.num n, r)
            | none => none
          else none

/-- Parse one or more comma-separated array items up to the closing `]`. -/
def parseItems : Nat → List Char → Option (List Json × List Char)
  | 0, _ => none
  | fuel + 1, cs =>
      match parseVal fuel cs with
      | none => none
      | some (v, r) =>
          match skipWs r with
          | ',' :: r2 =>
              match parseItems fuel r2 with
              | some (vs, r3) => some (v :: vs, r3)
              | none => none
          | ']' :: r2 => some ([v], r2)
          | _ => none

/-- Parse one or more comma-separated object members up to the closing brace. -/
def parseMembers : Nat → List Char → Option (List (String × Json) × List Char)
  | 0, _ => none
  | fuel + 1, cs =>
      match skipWs cs with
      | '"' :: r0 =>
          match parseStrBody [] r0 with
          | none => none
          | some (key, r1) =>
              match skipWs r1 with
              | ':' :: r2 =>
                  match parseVal fuel r2 with
                  | none => none
                  | some (v, r3) =>
                      match skipWs r3 with
                      | ',' :: r4 =>
                          match parseMembers fuel r4 with
                          | some (ms, r5) => some ((key, v) :: ms, r5)
                          | none => none
                      | c4 :: r4 =>
                          if c4 = rb then some ([(key, v)], r4) else none
                      | [] => none
              | _ => none
      | _ => none

end

/-- `json.loads`: parse a complete document, rejecting trailing garbage. -/
def loads (s : String) : Option Json :=
  match parseVal (s.toList.length + 1) s.toList with
  | some (j, r) => if (skipWs r).isEmpty then some j else none
  | none => none

end PyJson

namespace CitationTracker

/-! ### The registry as a JSON value, and the store round trip -/

open PyJson

/-- One `queries` element as its JSON dict. -/
def recToJson (r : UsageRecord) : Json :=
  Json.obj [("query", Json.str r.query), ("timestamp", Json.str r.timestamp)]

/-- One registry entry as its JSON dict, keys in the insertion order
`add_citation` creates them; `.get`-optional keys are present exactly when
the entry holds them. -/
def entryToJson (e : CitationEntry) : Json :=
  Json.obj ([("title", Json.str e.title)] ++
    (match e.authors with
     | some l => [("authors", Json.arr (l.map Json.str))]
     | none => []) ++
    (match e.url with
     | some u => [("url", Json.str u)]
     | none => []) ++
    (match e.first_used with
     | some f => [("first_used", Json.str f)]
     | none => []) ++
    [("use_count", Json.num e.use_count),
     ("queries", Json.arr (e.queries.map recToJson))])

/-- One `usage_history` element as its JSON dict. -/
def eventToJson (ev : UsageEvent) : Json :=
  Json.obj [("citation_id", Json.str ev.citation_id),
    ("content_type", Json.str ev.content_type),
    ("query", Json.str ev.query),
    ("timestamp", Json.str ev.timestamp)]

/-- The whole `self.citations` dict as a JSON value. -/
def registryToJson (reg : Registry) : Json :=
  Json.obj [("papers", Json.obj (reg.papers.map fun p => (p.1, entryToJson p.2))),
    ("videos", Json.obj (reg.videos.map fun p => (p.1, entryToJson p.2))),
    ("podcasts", Json.obj (reg.podcasts.map fun p => (p.1, entryToJson p.2))),
    ("usage_history", Json.arr (reg.usage_history.map eventToJson))]

/-- Dict lookup on parsed JSON object members. -/
def objGet : List (String × Json) → String → Option Json
  | [], _ => none
  | (k, v) :: ms, key => if k = key then some v else objGet ms key

/-- A JSON string, required. -/
def asStr : Json → Option String
  | Json.str s => some s
  | _ => none

/-- A JSON non-negative integer, required. -/
def asNat : Json → Option Nat
  | Json.num n => some n
  | _ => none

/-- Decode every element of a parsed list, failing if any element fails. -/
def decodeList (f : Json → Option α) : List Json → Option (List α)
  | [] => some []
  | x :: xs =>
      match f x, decodeList f xs with
      | some a, some l => some (a :: l)
      | _, _ => none

/-- A JSON array of strings, required. -/
def asStrList : Json → Option (List String)
  | Json.arr xs => decodeList asStr xs
  | _ => none

/-- An optional dict key: absent keys decode to `none`, present keys must
decode with `f`. -/
def optField (ms : List (String × Json)) (key : String) (f : Json → Option β) :
    Option (Option β) :=
  match objGet ms key with
  | none => some none
  | some v => (f v).map some

/-- Recover one `queries` element from its JSON dict. -/
def recFromJson : Json → Option UsageRecord
  | Json.obj ms => do
      let q ← objGet ms "query" >>= asStr
      let t ← objGet ms "timestamp" >>= asStr
      pure ⟨q, t⟩
  | _ => none

/-- Recover one registry entry from its JSON dict. -/
def entryFromJson : Json → Option CitationEntry
  | Json.obj ms => do
      let t ← objGet ms "title" >>= asStr
      let authors ← optField ms "authors" asStrList
      let url ← optField ms "url" asStr
      let fu ← optField ms "first_used" asStr
      let uc ← objGet ms "use_count" >>= asNat
      let qs ← match objGet ms "queries" with
        | some (Json.arr xs) => decodeList recFromJson xs
        | _ => none
      pure ⟨t, authors, url, fu, uc, qs⟩
  | _ => none

/-- Recover one `usage_history` element from its JSON dict. -/
def eventFromJson : Json → Option UsageEvent
  | Json.obj ms => do
      let cid ← objGet ms "citation_id" >>= asStr
      let ct ← objGet ms "content_type" >>= asStr
      let q ← objGet ms "query" >>= asStr
      let t ← objGet ms "timestamp" >>= asStr
      pure ⟨cid, ct, q, t⟩
  | _ => none

/-- Recover a citation map from the members of a JSON object, keeping order. -/
def decodeMap : List (String × Json) → Option CitationMap
  | [] => some []
  | (k, v) :: ms =>
      match entryFromJson v, decodeMap ms with
      | some e, some m => some ((k, e) :: m)
      | _, _ => none

/-- Recover a citation map from a JSON object. -/
def mapFromJson : Json → Option CitationMap
  | Json.obj ms => decodeMap ms
  | _ => none

/-- Recover the whole registry from its JSON value. -/
def registryFromJson : Json → Option Registry
  | Json.obj ms => do
      let papers ← objGet ms "papers" >>= mapFromJson
      let videos ← objGet ms "videos" >>= mapFromJson
      let podcasts ← objGet ms "podcasts" >>= mapFromJson
      let hist ← match objGet ms "usage_history" with
        | some (Json.arr xs) => decodeList eventFromJson xs
        | _ => none
      pure ⟨papers, videos, podcasts, hist⟩
  | _ => none

/-- `export_bibliography(format)`: BibTeX, APA, or (any other format name)
`json.dumps(self.citations, indent=2)`. `save_citations` writes this same
`dumps` text to the storage file. -/
def export_bibliography (reg : Registry) (format : String) : String :=
  if format = "bibtex" then export_bibtex reg
  else if format = "apa" then export_apa reg
  else PyJson.dumps (registryToJson reg)

/-- The `@article` block as the spec describes it (spec-side rendering, to be
compared with `bibtexBlock` from the source): keyed by the citation id, the
`author` field is the authors list joined with " and " — or "Unknown" when
the entry has no authors key — the `year` field is the first 4 characters of
`first_used`, and the `url` field is the stored url. -/
def bibtexEntrySpec (cid : String) (p : CitationEntry) : String :=
  "@article\x7b" ++ cid ++ ",\n    title=\x7b" ++ p.title ++
    "\x7d,\n    author=\x7b" ++
    (match p.authors with
     | none => "Unknown"
     | some l => String.intercalate " and " l) ++
    "\x7d,\n    year=\x7b" ++ (p.first_used.getD "").take 4 ++
    "\x7d,\n    url=\x7b" ++ p.url.getD "" ++ "\x7d\n\x7d"

end CitationTracker

open CitationTracker ResearchOrchestrator

namespace PyJson

theorem char_ne_of_toNat_ne {c d : Char} (h : c.toNat ≠ d.toNat) : c ≠ d :=
  fun hh => h (by rw [hh])

theorem char_valid_nat (c : Char) :
    c.toNat < 55296 ∨ (57343 < c.toNat ∧ c.toNat < 1114112) := by
  have h := c.valid
  simp only [UInt32.isValidChar, Nat.isValidChar] at h
  exact h

theorem hexVal_hexDigitLower (d : Nat) (h : d < 16) :
    hexVal? (hexDigitLower d) = some d := by
  interval_cases d <;> decide

theorem readHex4_hex4 (n : Nat) (h : n < 65536) (rest : List Char) :
    readHex4 (hex4 n ++ rest) = some (n, rest) := by
  have h1 : n / 4096 % 16 < 16 := Nat.mod_lt _ (by omega)
  have h2 : n / 256 % 16 < 16 := Nat.mod_lt _ (by omega)
  have h3 : n / 16 % 16 < 16 := Nat.mod_lt _ (by omega)
  have h4 : n % 16 < 16 := Nat.mod_lt _ (by omega)
  simp only [hex4, List.cons_append, List.nil_append, readHex4,
    hexVal_hexDigitLower _ h1, hexVal_hexDigitLower _ h2,
    hexVal_hexDigitLower _ h3, hexVal_hexDigitLower _ h4]
  have : ((n / 4096 % 16 * 16 + n / 256 % 16) * 16 + n / 16 % 16) * 16 + n % 16 = n := by
    omega
  rw [this]

theorem parseStrBody_escapeChar (c : Char) (acc rest : List Char) :
    parseStrBody acc (escapeChar c ++ rest) = parseStrBody (c :: acc) rest := by
  unfold escapeChar
  split_ifs with h1 h2 h3 h4 h5 h6 h7 h8 h9
  · subst h1
    conv_lhs => rw [parseStrBody.eq_def]
    simp [unescape?]
  · subst h2
    conv_lhs => rw [parseStrBody.eq_def]
    simp [unescape?]
  · have hc : c = Char.ofNat 8 := by
      have := Char.ofNat_toNat c
      rw [h3] at this
      exact this.symm
    subst hc
    conv_lhs => rw [parseStrBody.eq_def]
    simp [unescape?]
  · have hc : c = Char.ofNat 12 := by
      have := Char.ofNat_toNat c
      rw [h4] at this
      exact this.symm
    subst hc
    conv_lhs => rw [parseStrBody.eq_def]
    simp [unescape?]
  · subst h5
    conv_lhs => rw [parseStrBody.eq_def]
    simp [unescape?]
  · subst h6
    conv_lhs => rw [parseStrBody.eq_def]
    simp [unescape?]
  · subst h7
    conv_lhs => rw [parseStrBody.eq_def]
    simp [unescape?]
  · rw [List.singleton_append]
    conv_lhs => rw [parseStrBody.eq_def]
    simp [h1, h2]
  · -- basic-plane character outside printable ASCII: one \uXXXX escape
    have hr := readHex4_hex4 c.toNat h9 rest
    conv_lhs =>
      rw [List.cons_append, List.cons_append, parseStrBody.eq_def]
    simp only [reduceIte, reduceCtorEq, if_pos rfl]
    rw [if_neg (show ¬(('\\' : Char) = '"') by decide)]
    split
    case _ heq =>
        rw [hr] at heq
        exact absurd heq (by simp)
    case _ n cs3 heq =>
        rw [hr] at heq
        simp only [Option.some.injEq, Prod.mk.injEq] at heq
        obtain ⟨rfl, rfl⟩ := heq
        rcases char_valid_nat c with hv | hv <;>
          rw [if_neg (by omega : ¬(55296 ≤ c.toNat ∧ c.toNat < 56320)),
            if_neg (by omega : ¬(56320 ≤ c.toNat ∧ c.toNat < 57344)),
            Char.ofNat_toNat]
  · -- astral character: a surrogate pair of \uXXXX escapes
    have hlt : c.toNat < 1114112 := by
      rcases char_valid_nat c with hv | hv
      · omega
      · omega
    have hge : 65536 ≤ c.toNat := by omega
    obtain ⟨q, hq⟩ : ∃ q, c.toNat - 65536 = q := ⟨_, rfl⟩
    rw [hq]
    have hr1 := readHex4_hex4 (55296 + q / 1024) (by omega)
      ('\\' :: 'u' :: (hex4 (56320 + q % 1024) ++ rest))
    have hr2 := readHex4_hex4 (56320 + q % 1024) (by omega) rest
    have hmq : q % 1024 < 1024 := Nat.mod_lt _ (by omega)
    have hdq : q / 1024 < 1024 := by omega
    conv_lhs =>
      simp only [List.append_assoc, List.cons_append]
      rw [parseStrBody.eq_def]
    simp only [reduceIte, reduceCtorEq, if_pos rfl]
    rw [if_neg (show ¬(('\\' : Char) = '"') by decide)]
    split
    case _ heq =>
        rw [hr1] at heq
        exact absurd heq (by simp)
    case _ n cs3 heq =>
        rw [hr1] at heq
        simp only [Option.some.injEq, Prod.mk.injEq] at heq
        obtain ⟨rfl, rfl⟩ := heq
        rw [if_pos (show 55296 ≤ 55296 + q / 1024 ∧ 55296 + q / 1024 < 56320 by omega)]
        simp only [reduceIte, and_self, if_true]
        split
        case _ heq2 =>
            rw [hr2] at heq2
            exact absurd heq2 (by simp)
        case _ m cs5 heq2 =>
            rw [hr2] at heq2
            simp only [Option.some.injEq, Prod.mk.injEq] at heq2
            obtain ⟨rfl, rfl⟩ := heq2
            rw [if_pos (show 56320 ≤ 56320 + q % 1024 ∧ 56320 + q % 1024 < 57344 by omega)]
            rw [show 65536 + (55296 + q / 1024 - 55296) * 1024 +
                (56320 + q % 1024 - 56320) = c.toNat by omega,
              Char.ofNat_toNat]

theorem parseStrBody_flatMap (s : List Char) : ∀ (acc rest : List Char),
    parseStrBody acc (s.flatMap escapeChar ++ ('"' :: rest)) =
      some (String.mk (acc.reverse ++ s), rest) := by
  induction s with
  | nil =>
      intro acc rest
      rw [List.flatMap_nil, List.nil_append, parseStrBody.eq_def]
      simp
  | cons c cs ih =>
      intro acc rest
      rw [List.flatMap_cons, List.append_assoc, parseStrBody_escapeChar, ih]
      simp

theorem parseStrBody_encode (s : String) (rest : List Char) :
    parseStrBody [] (s.toList.flatMap escapeChar ++ ('"' :: rest)) = some (s, rest) := by
  rw [parseStrBody_flatMap]
  rfl

/-- The input after a rendered number may not begin with another digit. -/
def numDelim : List Char → Bool
  | [] => true
  | c :: _ => !c.isDigit

theorem digitChar_spec (d : Nat) (h : d < 10) :
    (Char.ofNat (48 + d)).toNat = 48 + d ∧ (Char.ofNat (48 + d)).isDigit = true := by
  interval_cases d <;> exact ⟨by decide, by decide⟩

theorem natChars_ne_nil (n : Nat) : natChars n ≠ [] := by
  rw [natChars.eq_def]
  split <;> simp

theorem natChars_digits (n : Nat) : ∀ c ∈ natChars n, c.isDigit = true := by
  induction n using Nat.strong_induction_on with
  | _ n ih =>
      rw [natChars.eq_def]
      split
      · intro c hc
        rw [List.mem_singleton] at hc
        subst hc
        exact (digitChar_spec n (by omega)).2
      · intro c hc
        rw [List.mem_append] at hc
        rcases hc with hc | hc
        · exact ih (n / 10) (by omega) c hc
        · rw [List.mem_singleton] at hc
          subst hc
          exact (digitChar_spec (n % 10) (Nat.mod_lt _ (by omega))).2

theorem natChars_foldl (n : Nat) :
    (natChars n).foldl (fun a c => a * 10 + (c.toNat - 48)) 0 = n := by
  induction n using Nat.strong_induction_on with
  | _ n ih =>
      rw [natChars.eq_def]
      split
      · rw [List.foldl_cons, List.foldl_nil, (digitChar_spec n (by omega)).1]
        omega
      · rw [List.foldl_append, ih (n / 10) (by omega), List.foldl_cons, List.foldl_nil,
          (digitChar_spec (n % 10) (Nat.mod_lt _ (by omega))).1]
        omega

theorem takeWhile_digits_append (xs rest : List Char)
    (hxs : ∀ c ∈ xs, c.isDigit = true) (hrest : numDelim rest = true) :
    (xs ++ rest).takeWhile Char.isDigit = xs ∧
      (xs ++ rest).dropWhile Char.isDigit = rest := by
  induction xs with
  | nil =>
      simp only [List.nil_append]
      cases rest with
      | nil => exact ⟨rfl, rfl⟩
      | cons c t =>
          simp only [numDelim, Bool.not_eq_true'] at hrest
          simp [List.takeWhile, List.dropWhile, hrest]
  | cons c t ih =>
      have hc : c.isDigit = true := hxs c (by simp)
      obtain ⟨h1, h2⟩ := ih fun x hx => hxs x (by simp [hx])
      simp [List.takeWhile, List.dropWhile, hc, h1, h2]

theorem parseNat_natChars (n : Nat) (rest : List Char) (h : numDelim rest = true) :
    parseNat (natChars n ++ rest) = some (n, rest) := by
  obtain ⟨ht, hd⟩ := takeWhile_digits_append (natChars n) rest (natChars_digits n) h
  unfold parseNat
  simp only [ht, hd]
  rw [if_neg (by simpa using natChars_ne_nil n)]
  rw [natChars_foldl]

theorem isJsonWs_false_of_digit (c : Char) (h : c.isDigit = true) :
    isJsonWs c = false := by
  have h1 : c ≠ ' ' := fun hh => by subst hh; exact absurd h (by decide)
  have h2 : c ≠ '\t' := fun hh => by subst hh; exact absurd h (by decide)
  have h3 : c ≠ '\n' := fun hh => by subst hh; exact absurd h (by decide)
  have h4 : c ≠ '\r' := fun hh => by subst hh; exact absurd h (by decide)
  simp [isJsonWs, h1, h2, h3, h4]

theorem digit_ne_special (c : Char) (h : c.isDigit = true) :
    c ≠ '"' ∧ c ≠ '[' ∧ c ≠ lb ∧ c ≠ ']' ∧ c ≠ rb ∧ c ≠ ',' := by
  refine ⟨?_, ?_, ?_, ?_, ?_, ?_⟩ <;>
    exact fun hh => by subst hh; exact absurd h (by decide)

theorem skipWs_cons_not {c : Char} (x : List Char) (h : isJsonWs c = false) :
    skipWs (c :: x) = c :: x := by
  simp [skipWs, List.dropWhile, h]

theorem skipWs_ws_prefix (l : List Char) (x : List Char)
    (h : ∀ c ∈ l, isJsonWs c = true) : skipWs (l ++ x) = skipWs x := by
  induction l with
  | nil => rfl
  | cons c t ih =>
      have hc : isJsonWs c = true := h c (by simp)
      rw [List.cons_append]
      show List.dropWhile isJsonWs (c :: (t ++ x)) = _
      rw [List.dropWhile_cons_of_pos hc]
      exact ih fun d hd => h d (by simp [hd])

theorem nlind_ws (lvl : Nat) : ∀ c ∈ nlind lvl, isJsonWs c = true := by
  intro c hc
  simp only [nlind, List.mem_cons] at hc
  rcases hc with rfl | hc
  · decide
  · rw [List.eq_of_mem_replicate hc]
    decide

theorem skipWs_nlind (lvl : Nat) (x : List Char) :
    skipWs (nlind lvl ++ x) = skipWs x :=
  skipWs_ws_prefix _ _ (nlind_ws lvl)

theorem skipWs_skipWs (cs : List Char) : skipWs (skipWs cs) = skipWs cs := by
  induction cs with
  | nil => rfl
  | cons c t ih =>
      by_cases hc : isJsonWs c = true
      · show skipWs (List.dropWhile isJsonWs (c :: t)) = List.dropWhile isJsonWs (c :: t)
        rw [List.dropWhile_cons_of_pos hc]
        exact ih
      · rw [skipWs_cons_not t (by simpa using hc), skipWs_cons_not t (by simpa using hc)]

theorem natChars_head (n : Nat) :
    ∃ c t, natChars n = c :: t ∧ c.isDigit = true := by
  cases h : natChars n with
  | nil => exact absurd h (natChars_ne_nil n)
  | cons c t =>
      exact ⟨c, t, rfl, natChars_digits n c (h ▸ List.mem_cons_self c t)⟩

theorem dumpVal_head (lvl : Nat) (j : Json) :
    ∃ c t, dumpVal lvl j = c :: t ∧ isJsonWs c = false ∧ c ≠ ']' ∧ c ≠ rb := by
  cases j with
  | str s => exact ⟨'"', _, by rw [dumpVal, encodeStr], by decide, by decide, by decide⟩
  | num n =>
      obtain ⟨c, t, hn, hc⟩ := natChars_head n
      exact ⟨c, t, by rw [dumpVal, hn],
        isJsonWs_false_of_digit c hc,
        (digit_ne_special c hc).2.2.2.1, (digit_ne_special c hc).2.2.2.2.1⟩
  | arr items =>
      cases items with
      | nil => exact ⟨'[', _, by rw [dumpVal], by decide, by decide, by decide⟩
      | cons x xs => exact ⟨'[', _, by rw [dumpVal], by decide, by decide, by decide⟩
  | obj members =>
      cases members with
      | nil => exact ⟨lb, _, by rw [dumpVal], by decide, by decide, by decide⟩
      | cons m ms => exact ⟨lb, _, by rw [dumpVal], by decide, by decide, by decide⟩

theorem parseVal_skipWs (fuel : Nat) (cs : List Char) :
    parseVal fuel (skipWs cs) = parseVal fuel cs := by
  cases fuel with
  | zero => rw [parseVal, parseVal]
  | succ f =>
      rw [parseVal, parseVal, skipWs_skipWs]

theorem parseItems_skipWs (fuel : Nat) (cs : List Char) :
    parseItems fuel (skipWs cs) = parseItems fuel cs := by
  cases fuel with
  | zero => rw [parseItems, parseItems]
  | succ f =>
      rw [parseItems, parseItems, parseVal_skipWs]

theorem parseMembers_skipWs (fuel : Nat) (cs : List Char) :
    parseMembers fuel (skipWs cs) = parseMembers fuel cs := by
  cases fuel with
  | zero => rw [parseMembers, parseMembers]
  | succ f =>
      rw [parseMembers, parseMembers, skipWs_skipWs]

theorem numDelim_nlind (lvl : Nat) (x : List Char) :
    numDelim (nlind lvl ++ x) = true := by
  rw [nlind, List.cons_append]
  rfl

theorem skipWs_dumpVal (lvl : Nat) (j : Json) (x : List Char) :
    skipWs (dumpVal lvl j ++ x) = dumpVal lvl j ++ x := by
  obtain ⟨c, t, hj, hws, -, -⟩ := dumpVal_head lvl j
  rw [hj, List.cons_append, skipWs_cons_not _ hws]

theorem numDelim_comma (z : List Char) : numDelim (',' :: z) = true := rfl

theorem parseVal_cons_ws (f : Nat) (c : Char) (w : List Char)
    (h : isJsonWs c = true) : parseVal f (c :: w) = parseVal f w := by
  have h2 : skipWs (c :: w) = skipWs w := by
    simp [skipWs, List.dropWhile_cons_of_pos h]
  rw [← parseVal_skipWs f (c :: w), h2, parseVal_skipWs]

theorem parseVal_nlind (f lvl : Nat) (z : List Char) :
    parseVal f (nlind lvl ++ z) = parseVal f z := by
  rw [← parseVal_skipWs f (nlind lvl ++ z), skipWs_nlind, parseVal_skipWs]

theorem dumpItems_shape (lvl : Nat) (x : Json) (xs : List Json) :
    ∃ tail, dumpItems lvl x xs = nlind lvl ++ (dumpVal lvl x ++ tail) := by
  cases xs with
  | nil => exact ⟨[], by rw [dumpItems, List.append_nil]⟩
  | cons y ys =>
      exact ⟨',' :: dumpItems lvl y ys, by rw [dumpItems, List.append_assoc]⟩

theorem skipWs_dumpItems_head (lvl : Nat) (x : Json) (xs : List Json)
    (t : List Char) :
    ∃ c r, skipWs (dumpItems lvl x xs ++ t) = c :: r ∧ c ≠ ']' := by
  obtain ⟨tail, hsh⟩ := dumpItems_shape lvl x xs
  obtain ⟨c, r0, hx, hws, hne1, -⟩ := dumpVal_head lvl x
  refine ⟨c, r0 ++ (tail ++ t), ?_, hne1⟩
  rw [hsh, List.append_assoc, skipWs_nlind, List.append_assoc, hx,
    List.cons_append, skipWs_cons_not _ hws]

theorem dumpMembers_shape (lvl : Nat) (m : String × Json)
    (ms : List (String × Json)) :
    ∃ tail, dumpMembers lvl m ms = nlind lvl ++ (encodeStr m.1 ++ tail) := by
  obtain ⟨k, v⟩ := m
  cases ms with
  | nil =>
      exact ⟨':' :: ' ' :: dumpVal lvl v, by rw [dumpMembers, List.append_assoc]⟩
  | cons m2 ms =>
      exact ⟨(':' :: ' ' :: dumpVal lvl v) ++ (',' :: dumpMembers lvl m2 ms), by
        rw [dumpMembers, List.append_assoc, List.append_assoc]⟩

theorem skipWs_dumpMembers_head (lvl : Nat) (m : String × Json)
    (ms : List (String × Json)) (t : List Char) :
    ∃ r, skipWs (dumpMembers lvl m ms ++ t) = '"' :: r := by
  obtain ⟨tail, hsh⟩ := dumpMembers_shape lvl m ms
  refine ⟨(m.1.toList.flatMap escapeChar ++ ['"']) ++ (tail ++ t), ?_⟩
  rw [hsh, List.append_assoc, skipWs_nlind, encodeStr, List.append_assoc,
    List.cons_append, skipWs_cons_not _ (by decide)]

mutual

theorem rt_val : ∀ (j : Json) (lvl fuel : Nat) (rest : List Char),
    (dumpVal lvl j).length < fuel → numDelim rest = true →
    parseVal fuel (dumpVal lvl j ++ rest) = some (j, rest)
  | Json.str s, lvl, fuel, rest, hf, hd => by
      cases fuel with
      | zero => exact absurd hf (by omega)
      | succ f =>
          rw [dumpVal, encodeStr] at hf ⊢
          rw [List.cons_append, parseVal, skipWs_cons_not _ (by decide)]
          simp only [reduceIte, reduceCtorEq]
          rw [List.append_assoc, List.singleton_append, parseStrBody_encode]
  | Json.num n, lvl, fuel, rest, hf, hd => by
      cases fuel with
      | zero => exact absurd hf (by omega)
      | succ f =>
          rw [dumpVal] at hf ⊢
          obtain ⟨c, t, hn, hc⟩ := natChars_head n
          obtain ⟨hq, hlb, hlbb, -, -, -⟩ := digit_ne_special c hc
          rw [hn, List.cons_append, parseVal,
            skipWs_cons_not _ (isJsonWs_false_of_digit c hc)]
          simp only [if_neg hq, if_neg hlb, if_neg hlbb, if_pos hc]
          rw [← List.cons_append, ← hn, parseNat_natChars n rest hd]
  | Json.arr [], lvl, fuel, rest, hf, hd => by
      cases fuel with
      | zero => exact absurd hf (by omega)
      | succ f =>
          rw [dumpVal] at hf ⊢
          rw [List.cons_append, parseVal, skipWs_cons_not _ (by decide)]
          simp only [reduceIte, reduceCtorEq]
          rw [if_neg (show ¬(('[' : Char) = '"') by decide),
            List.cons_append, skipWs_cons_not _ (by decide)]
          simp only [List.nil_append]
  | Json.arr (x :: xs), lvl, fuel, rest, hf, hd => by
      cases fuel with
      | zero => exact absurd hf (by omega)
      | succ f =>
          rw [dumpVal] at hf ⊢
          have hfu : (dumpItems (lvl + 1) x xs).length + 1 < f := by
            simp only [List.length_cons, List.length_append, nlind,
              List.length_replicate, List.length_nil] at hf
            omega
          rw [List.cons_append, parseVal, skipWs_cons_not _ (by decide)]
          simp only [reduceIte, reduceCtorEq]
          rw [if_neg (show ¬(('[' : Char) = '"') by decide)]
          rw [List.append_assoc, List.append_assoc, List.singleton_append]
          obtain ⟨c, r, hsk, hne⟩ :=
            skipWs_dumpItems_head (lvl + 1) x xs (nlind lvl ++ (']' :: rest))
          rw [hsk]
          split
          · rename_i r2 heq
            rw [List.cons.injEq] at heq
            exact absurd heq.1 hne
          · rw [← hsk, parseItems_skipWs,
              rt_items x xs (lvl + 1) lvl f rest hfu]
  | Json.obj [], lvl, fuel, rest, hf, hd => by
      cases fuel with
      | zero => exact absurd hf (by omega)
      | succ f =>
          rw [dumpVal] at hf ⊢
          rw [List.cons_append, parseVal, skipWs_cons_not _ (by decide)]
          simp only [reduceCtorEq, reduceIte]
          rw [if_neg (show ¬(lb = '"') by decide),
            if_neg (show ¬(lb = '[') by decide),
            List.cons_append, skipWs_cons_not _ (by decide)]
          simp only [List.nil_append]
          rw [if_pos trivial]
  | Json.obj (m :: ms), lvl, fuel, rest, hf, hd => by
      cases fuel with
      | zero => exact absurd hf (by omega)
      | succ f =>
          rw [dumpVal] at hf ⊢
          have hfu : (dumpMembers (lvl + 1) m ms).length + 1 < f := by
            simp only [List.length_cons, List.length_append, nlind,
              List.length_replicate, List.length_nil] at hf
            omega
          rw [List.cons_append, parseVal, skipWs_cons_not _ (by decide)]
          simp only [reduceIte, reduceCtorEq]
          rw [if_neg (show ¬(lb = '"') by decide),
            if_neg (show ¬(lb = '[') by decide)]
          rw [List.append_assoc, List.append_assoc, List.singleton_append]
          obtain ⟨r, hsk⟩ :=
            skipWs_dumpMembers_head (lvl + 1) m ms (nlind lvl ++ (rb :: rest))
          rw [hsk]
          simp only [reduceIte, reduceCtorEq]
          rw [if_neg (show ¬(('"' : Char) = rb) by decide)]
          rw [← hsk, parseMembers_skipWs,
            rt_members m ms (lvl + 1) lvl f rest hfu]
termination_by j _ _ _ _ _ => sizeOf j

theorem rt_items : ∀ (x : Json) (xs : List Json) (lvl lvl2 fuel : Nat)
    (rest : List Char),
    (dumpItems lvl x xs).length + 1 < fuel →
    parseItems fuel (dumpItems lvl x xs ++ (nlind lvl2 ++ (']' :: rest))) =
      some (x :: xs, rest)
  | x, [], lvl, lvl2, fuel, rest, hf => by
      cases fuel with
      | zero => exact absurd hf (by omega)
      | succ f =>
          rw [dumpItems] at hf ⊢
          have hfu : (dumpVal lvl x).length < f := by
            simp only [List.length_append, nlind, List.length_cons,
              List.length_replicate] at hf
            omega
          rw [parseItems, List.append_assoc, parseVal_nlind,
            rt_val x lvl f _ hfu (numDelim_nlind lvl2 (']' :: rest))]
          simp only []
          rw [skipWs_nlind, skipWs_cons_not _ (by decide)]
          rfl
  | x, y :: ys, lvl, lvl2, fuel, rest, hf => by
      cases fuel with
      | zero => exact absurd hf (by omega)
      | succ f =>
          rw [dumpItems] at hf ⊢
          have hfu : (dumpVal lvl x).length < f := by
            simp only [List.length_append, nlind, List.length_cons,
              List.length_replicate] at hf
            omega
          have hfu2 : (dumpItems lvl y ys).length + 1 < f := by
            simp only [List.length_append, nlind, List.length_cons,
              List.length_replicate] at hf
            omega
          rw [parseItems, List.append_assoc, List.append_assoc,
            List.cons_append, parseVal_nlind,
            rt_val x lvl f _ hfu (numDelim_comma _)]
          simp only []
          rw [skipWs_cons_not _ (by decide)]
          split
          · rename_i r2 heq
            rw [List.cons.injEq] at heq
            obtain ⟨-, h2⟩ := heq
            subst h2
            rw [rt_items y ys lvl lvl2 f rest hfu2]
          · rename_i r2 heq
            rw [List.cons.injEq] at heq
            exact absurd heq.1 (by decide)
          · rename_i hne1 hne2
            exact absurd rfl (hne1 _)
termination_by x xs _ _ _ _ _ => 1 + sizeOf x + sizeOf xs

theorem rt_members : ∀ (m : String × Json) (ms : List (String × Json))
    (lvl lvl2 fuel : Nat) (rest : List Char),
    (dumpMembers lvl m ms).length + 1 < fuel →
    parseMembers fuel (dumpMembers lvl m ms ++ (nlind lvl2 ++ (rb :: rest))) =
      some (m :: ms, rest)
  | (k, v), [], lvl, lvl2, fuel, rest, hf => by
      cases fuel with
      | zero => exact absurd hf (by omega)
      | succ f =>
          rw [dumpMembers] at hf ⊢
          have hfu : (dumpVal lvl v).length < f := by
            simp only [List.length_append, nlind, encodeStr, List.length_cons,
              List.length_replicate] at hf
            omega
          rw [List.append_assoc, List.append_assoc, List.cons_append,
            List.cons_append, encodeStr, List.cons_append, List.append_assoc,
            List.singleton_append]
          rw [parseMembers, skipWs_nlind, skipWs_cons_not _ (by decide)]
          split
          · rename_i r0 heq
            rw [List.cons.injEq] at heq
            obtain ⟨-, h2⟩ := heq
            subst h2
            rw [parseStrBody_encode]
            simp only []
            rw [skipWs_cons_not _ (by decide)]
            split
            · rename_i r2 heq2
              rw [List.cons.injEq] at heq2
              obtain ⟨-, h3⟩ := heq2
              subst h3
              rw [parseVal_cons_ws f ' ' _ (by decide),
                rt_val v lvl f _ hfu (numDelim_nlind lvl2 (rb :: rest))]
              simp only []
              rw [skipWs_nlind, skipWs_cons_not _ (by decide)]
              split
              · rename_i r4 heq3
                rw [List.cons.injEq] at heq3
                exact absurd heq3.1 (by decide)
              · rename_i c4 r4 heq3
                rw [List.cons.injEq] at heq3
                obtain ⟨h4, h5⟩ := heq3
                subst h4
                subst h5
                rw [if_pos rfl]
              · rename_i heq3
                exact absurd heq3 (by simp)
            · rename_i hne
              exact absurd rfl (hne _)
          · rename_i hne
            exact absurd rfl (hne _)
  | (k, v), m2 :: ms, lvl, lvl2, fuel, rest, hf => by
      cases fuel with
      | zero => exact absurd hf (by omega)
      | succ f =>
          rw [dumpMembers] at hf ⊢
          have hfu : (dumpVal lvl v).length < f := by
            simp only [List.length_append, nlind, encodeStr, List.length_cons,
              List.length_replicate] at hf
            omega
          have hfu2 : (dumpMembers lvl m2 ms).length + 1 < f := by
            simp only [List.length_append, nlind, encodeStr, List.length_cons,
              List.length_replicate] at hf
            omega
          rw [List.append_assoc, List.append_assoc, List.append_assoc,
            List.cons_append, List.cons_append, List.cons_append,
            encodeStr, List.cons_append, List.append_assoc,
            List.singleton_append]
          rw [parseMembers, skipWs_nlind, skipWs_cons_not _ (by decide)]
          split
          · rename_i r0 heq
            rw [List.cons.injEq] at heq
            obtain ⟨-, h2⟩ := heq
            subst h2
            rw [parseStrBody_encode]
            simp only []
            rw [skipWs_cons_not _ (by decide)]
            split
            · rename_i r2 heq2
              rw [List.cons.injEq] at heq2
              obtain ⟨-, h3⟩ := heq2
              subst h3
              rw [parseVal_cons_ws f ' ' _ (by decide),
                rt_val v lvl f _ hfu (numDelim_comma _)]
              simp only []
              rw [skipWs_cons_not _ (by decide)]
              split
              · rename_i r4 heq3
                rw [List.cons.injEq] at heq3
                obtain ⟨-, h4⟩ := heq3
                subst h4
                rw [rt_members m2 ms lvl lvl2 f rest hfu2]
              · rename_i c4 r4 hnc heq3
                rw [List.cons.injEq] at heq3
                exact absurd heq3.1.symm hnc
              · rename_i heq3
                exact absurd heq3 (by simp)
            · rename_i hne
              exact absurd rfl (hne _)
          · rename_i hne
            exact absurd rfl (hne _)
termination_by m ms _ _ _ _ _ => 1 + sizeOf m + sizeOf ms

end

end PyJson




namespace PyJson

theorem loads_dumps (j : Json) : loads (dumps j) = some j := by
  have h := rt_val j 0 ((dumpVal 0 j).length + 1) [] (by omega) rfl
  rw [List.append_nil] at h
  have ht : (dumps j).toList = dumpVal 0 j := rfl
  rw [loads, ht, h]
  rfl

end PyJson


namespace CitationTracker

/-! ### Helper lemmas about the registry maps -/

theorem append_s_cancel {a b : String} (h : a ++ "s" = b ++ "s") : a = b := by
  have hd : a.data ++ "s".data = b.data ++ "s".data := by
    rw [← String.data_append, ← String.data_append, h]
  exact String.ext (List.append_left_injective "s".data hd)

theorem registryMap_append_s_none (reg : Registry) (ct : String)
    (h : ct ∉ (["paper", "video", "podcast"] : List String)) :
    registryMap reg (ct ++ "s") = none := by
  unfold registryMap
  split_ifs with h1 h2 h3
  · exact absurd (append_s_cancel (h1.trans (rfl : "paper" ++ "s" = "papers").symm))
      (fun hh => h (by simp [hh]))
  · exact absurd (append_s_cancel (h2.trans (rfl : "video" ++ "s" = "videos").symm))
      (fun hh => h (by simp [hh]))
  · exact absurd (append_s_cancel (h3.trans (rfl : "podcast" ++ "s" = "podcasts").symm))
      (fun hh => h (by simp [hh]))
  · rfl

theorem registryMap_set_same (reg : Registry) (k : String) (m m2 : CitationMap)
    (h : registryMap reg k = some m) :
    registryMap (setRegistryMap reg k m2) k = some m2 := by
  unfold registryMap at h ⊢
  unfold setRegistryMap
  split_ifs at h ⊢ with h1 h2 h3 <;> simp_all [registryMap]

theorem setRegistryMap_usage_history (reg : Registry) (k : String) (m : CitationMap) :
    (setRegistryMap reg k m).usage_history = reg.usage_history := by
  unfold setRegistryMap
  split_ifs <;> rfl

theorem lookupId_append_new (m : CitationMap) (cid : String) (v : CitationEntry)
    (h : lookupId m cid = none) : lookupId (m ++ [(cid, v)]) cid = some v := by
  induction m with
  | nil => simp [lookupId]
  | cons p rest ih =>
      simp only [lookupId] at h
      split at h
      · exact absurd h (by simp)
      · simp only [List.cons_append, lookupId]
        rw [if_neg (by assumption)]
        exact ih h

theorem updateId_append_new (m : CitationMap) (cid : String) (v : CitationEntry)
    (f : CitationEntry → CitationEntry) (h : lookupId m cid = none) :
    updateId (m ++ [(cid, v)]) cid f = m ++ [(cid, f v)] := by
  induction m with
  | nil => simp [updateId]
  | cons p rest ih =>
      simp only [lookupId] at h
      split at h
      · exact absurd h (by simp)
      · rw [List.cons_append, updateId, if_neg (by assumption), ih h, List.cons_append]

theorem lookupId_updateId_same (m : CitationMap) (cid : String) (e : CitationEntry)
    (f : CitationEntry → CitationEntry) (h : lookupId m cid = some e) :
    lookupId (updateId m cid f) cid = some (f e) := by
  induction m with
  | nil => simp [lookupId] at h
  | cons p rest ih =>
      simp only [lookupId] at h
      by_cases hp : p.1 = cid
      · rw [if_pos hp] at h
        cases p
        simp only at hp
        subst hp
        simp only [Option.some.injEq] at h
        subst h
        simp [updateId, lookupId]
      · rw [if_neg hp] at h
        cases p
        simp only at hp
        simp [updateId, lookupId, hp, ih h]

theorem lookupId_updateId_other (m : CitationMap) (cid cid2 : String)
    (f : CitationEntry → CitationEntry) (h : cid2 ≠ cid) :
    lookupId (updateId m cid f) cid2 = lookupId m cid2 := by
  induction m with
  | nil => simp [updateId, lookupId]
  | cons p rest ih =>
      cases p with
      | mk k v =>
          by_cases hk : k = cid
          · subst hk
            simp [updateId, lookupId, Ne.symm h, ih]
          · simp only [updateId, if_neg hk, lookupId]
            split <;> simp [ih]

theorem length_updateId (m : CitationMap) (cid : String)
    (f : CitationEntry → CitationEntry) : (updateId m cid f).length = m.length := by
  induction m with
  | nil => rfl
  | cons p rest ih =>
      cases p with
      | mk k v =>
          by_cases hk : k = cid <;> simp [updateId, hk, ih]

theorem lookupId_append_other (m : CitationMap) (p : String × CitationEntry)
    (cid2 : String) (h : cid2 ≠ p.1) :
    lookupId (m ++ [p]) cid2 = lookupId m cid2 := by
  induction m with
  | nil =>
      simp only [List.nil_append, lookupId]
      rw [if_neg (fun hh => h hh.symm)]
  | cons q rest ih =>
      by_cases hq : q.1 = cid2
      · simp [List.cons_append, lookupId, hq]
      · simp [List.cons_append, lookupId, hq, ih]

theorem registryMap_set_history (reg : Registry) (k : String) (hs : List UsageEvent) :
    registryMap { reg with usage_history := hs } k = registryMap reg k := by
  unfold registryMap
  split_ifs <;> rfl

theorem add_citation_ok (reg : Registry) (c : Citation) (q t : String) (m : CitationMap)
    (h : registryMap reg (c.content_type ++ "s") = some m) :
    add_citation reg c q t = Except.ok (
      let cid := generate_citation_id c
      let m1 := if (lookupId m cid).isSome then m else m ++ [(cid, freshEntry c t)]
      let m2 := updateId m1 cid fun e =>
        { e with use_count := e.use_count + 1, queries := e.queries ++ [⟨q, t⟩] }
      let reg1 := setRegistryMap reg (c.content_type ++ "s") m2
      { reg1 with usage_history := reg1.usage_history ++
          [⟨generate_citation_id c, c.content_type, q, t⟩] }) := by
  simp only [add_citation, h]

theorem add_citation_existing (reg : Registry) (c : Citation) (q t : String)
    (m : CitationMap) (e : CitationEntry)
    (hm : registryMap reg (c.content_type ++ "s") = some m)
    (he : lookupId m (generate_citation_id c) = some e) :
    ∃ r, add_citation reg c q t = Except.ok r ∧
      ∃ m2, registryMap r (c.content_type ++ "s") = some m2 ∧
        lookupId m2 (generate_citation_id c) = some
          { e with use_count := e.use_count + 1, queries := e.queries ++ [⟨q, t⟩] } ∧
        m2.length = m.length ∧
        (∀ cid2, cid2 ≠ generate_citation_id c → lookupId m2 cid2 = lookupId m cid2) ∧
        r.usage_history = reg.usage_history ++
          [⟨generate_citation_id c, c.content_type, q, t⟩] := by
  have hstep := add_citation_ok reg c q t m hm
  simp only [he, Option.isSome_some, if_true] at hstep
  refine ⟨_, hstep, updateId m (generate_citation_id c) (fun e =>
    { e with use_count := e.use_count + 1, queries := e.queries ++ [⟨q, t⟩] }),
    ?_, ?_, ?_, ?_, ?_⟩
  · rw [registryMap_set_history]
    exact registryMap_set_same reg _ m _ hm
  · exact lookupId_updateId_same m _ e _ he
  · exact length_updateId m _ _
  · exact fun cid2 h2 => lookupId_updateId_other m _ cid2 _ h2
  · simp [setRegistryMap_usage_history]

theorem add_citation_fresh (reg : Registry) (c : Citation) (q t : String)
    (m : CitationMap)
    (hm : registryMap reg (c.content_type ++ "s") = some m)
    (hnew : lookupId m (generate_citation_id c) = none) :
    ∃ r, add_citation reg c q t = Except.ok r ∧
      ∃ m2, registryMap r (c.content_type ++ "s") = some m2 ∧
        m2 = m ++ [(generate_citation_id c,
          { title := c.title, authors := some c.authors, url := some c.url,
            first_used := some t, use_count := 1, queries := [⟨q, t⟩] })] ∧
        r.usage_history = reg.usage_history ++
          [⟨generate_citation_id c, c.content_type, q, t⟩] := by
  have hstep := add_citation_ok reg c q t m hm
  simp only [hnew, Option.isSome_none, Bool.false_eq_true, if_false] at hstep
  rw [updateId_append_new m _ _ _ hnew] at hstep
  refine ⟨_, hstep, _, ?_, rfl, ?_⟩
  · rw [registryMap_set_history]
    exact registryMap_set_same reg _ m _ hm
  · simp [setRegistryMap_usage_history]

end CitationTracker

namespace Claims

open CitationTracker OpenSearchManager ResearchOrchestrator

/-- C1: calling `add_citation` twice with the same citation (same
(title, url), hence same citation id) against a registry whose content-type
map does not yet hold that id creates exactly one new entry for it —
`use_count == 2`, exactly the two usage records in `queries`, all other ids
untouched, both calls appended to the global history; and, in general, a call
whose id is already present creates no entry: it increments `use_count` by 1,
appends exactly one usage record, leaves the map size and every other id
unchanged, and appends to the history — existing history is never removed. -/
theorem add_citation_usage_ledger_spec :
    (∀ (reg : Registry) (c : Citation) (q1 t1 q2 t2 : String) (m : CitationMap),
      registryMap reg (c.content_type ++ "s") = some m →
      lookupId m (generate_citation_id c) = none →
      ∃ r1 r2, add_citation reg c q1 t1 = Except.ok r1 ∧
        add_citation r1 c q2 t2 = Except.ok r2 ∧
        ∃ m2, registryMap r2 (c.content_type ++ "s") = some m2 ∧
          lookupId m2 (generate_citation_id c) = some
            { title := c.title, authors := some c.authors, url := some c.url,
              first_used := some t1, use_count := 2,
              queries := [⟨q1, t1⟩, ⟨q2, t2⟩] } ∧
          m2.length = m.length + 1 ∧
          (∀ cid2, cid2 ≠ generate_citation_id c →
            lookupId m2 cid2 = lookupId m cid2) ∧
          r2.usage_history = reg.usage_history ++
            [⟨generate_citation_id c, c.content_type, q1, t1⟩,
             ⟨generate_citation_id c, c.content_type, q2, t2⟩]) ∧
    (∀ (reg : Registry) (c : Citation) (q t : String) (m : CitationMap)
        (e : CitationEntry),
      registryMap reg (c.content_type ++ "s") = some m →
      lookupId m (generate_citation_id c) = some e →
      ∃ r, add_citation reg c q t = Except.ok r ∧
        ∃ m2, registryMap r (c.content_type ++ "s") = some m2 ∧
          lookupId m2 (generate_citation_id c) = some
            { e with use_count := e.use_count + 1,
                     queries := e.queries ++ [⟨q, t⟩] } ∧
          m2.length = m.length ∧
          (∀ cid2, cid2 ≠ generate_citation_id c →
            lookupId m2 cid2 = lookupId m cid2) ∧
          r.usage_history = reg.usage_history ++
            [⟨generate_citation_id c, c.content_type, q, t⟩]) := by
  constructor
  · intro reg c q1 t1 q2 t2 m hm hnew
    obtain ⟨r1, h1, m1', hm1, hm1eq, hh1⟩ := add_citation_fresh reg c q1 t1 m hm hnew
    subst hm1eq
    have he1 := lookupId_append_new m (generate_citation_id c)
      { title := c.title, authors := some c.authors, url := some c.url,
        first_used := some t1, use_count := 1, queries := [⟨q1, t1⟩] } hnew
    obtain ⟨r2, h2, m2, hm2, hl2, hlen2, hoth2, hh2⟩ :=
      add_citation_existing r1 c q2 t2 _ _ hm1 he1
    refine ⟨r1, r2, h1, h2, m2, hm2, ?_, ?_, ?_, ?_⟩
    · exact hl2
    · rw [hlen2]
      simp
    · intro cid2 hne
      rw [hoth2 cid2 hne]
      exact lookupId_append_other m
        (generate_citation_id c,
          { title := c.title, authors := some c.authors, url := some c.url,
            first_used := some t1, use_count := 1, queries := [⟨q1, t1⟩] })
        cid2 hne
    · rw [hh2, hh1]
      simp
  · exact add_citation_existing

/-- Witness for `add_citation_usage_ledger_spec` at a concrete paper citation
added twice to the empty registry. -/
theorem add_citation_usage_ledger_spec_witness :
    (registryMap emptyRegistry ("paper" ++ "s") = some [] ∧
     lookupId [] (generate_citation_id ⟨"paper", "X", ["A"], "u"⟩) = none) ∧
    (∃ r1 r2,
      add_citation emptyRegistry ⟨"paper", "X", ["A"], "u"⟩ "q1" "t1" =
        Except.ok r1 ∧
      add_citation r1 ⟨"paper", "X", ["A"], "u"⟩ "q2" "t2" = Except.ok r2 ∧
      ∃ m2, registryMap r2 ("paper" ++ "s") = some m2 ∧
        lookupId m2 (generate_citation_id ⟨"paper", "X", ["A"], "u"⟩) = some
          { title := "X", authors := some ["A"], url := some "u",
            first_used := some "t1", use_count := 2,
            queries := [⟨"q1", "t1"⟩, ⟨"q2", "t2"⟩] } ∧
        m2.length = 0 + 1 ∧
        (∀ cid2, cid2 ≠ generate_citation_id ⟨"paper", "X", ["A"], "u"⟩ →
          lookupId m2 cid2 = lookupId [] cid2) ∧
        r2.usage_history = [] ++
          [⟨generate_citation_id ⟨"paper", "X", ["A"], "u"⟩, "paper", "q1", "t1"⟩,
           ⟨generate_citation_id ⟨"paper", "X", ["A"], "u"⟩, "paper", "q2", "t2"⟩]) :=
  ⟨⟨rfl, rfl⟩, add_citation_usage_ledger_spec.1 emptyRegistry
    ⟨"paper", "X", ["A"], "u"⟩ "q1" "t1" "q2" "t2" [] rfl rfl⟩

/-- C2 (counterexample): the citation-ID function is NOT injective on
(title, url) pairs: it hashes the bare concatenation `title + url`, so the
distinct pairs ("ab", "c") and ("a", "bc") receive identical IDs. -/
theorem generate_citation_id_pair_collision :
    (("ab", "c") ≠ (("a" : String), ("bc" : String))) ∧
    generate_citation_id ⟨"paper", "ab", [], "c"⟩ =
      generate_citation_id ⟨"paper", "a", [], "bc"⟩ := by
  constructor
  · decide
  · unfold generate_citation_id
    exact congrArg (fun s => (MD5.md5Hex s).take 12) (by decide)

/-- C2 (amended): the citation ID is deterministic and depends only on the
concatenation `title ++ url`: any two citations whose concatenations agree
(in particular, any two with equal (title, url)) receive identical IDs.
Injectivity on (title, url) fails exactly at concatenation collisions. -/
theorem generate_citation_id_concat_determined (c1 c2 : Citation)
    (h : c1.title ++ c1.url = c2.title ++ c2.url) :
    generate_citation_id c1 = generate_citation_id c2 := by
  unfold generate_citation_id
  rw [h]

/-- Witness for `generate_citation_id_concat_determined` at the colliding pair. -/
theorem generate_citation_id_concat_determined_witness :
    ("ab" ++ "c" = "a" ++ "bc") ∧
    generate_citation_id ⟨"paper", "ab", [], "c"⟩ =
      generate_citation_id ⟨"paper", "a", [], "bc"⟩ :=
  ⟨rfl, generate_citation_id_concat_determined ⟨"paper", "ab", [], "c"⟩
    ⟨"paper", "a", [], "bc"⟩ rfl⟩

/-- C10: for a `content_type` outside \x7bpaper, video, podcast\x7d,
`add_citation` raises `KeyError` at the registry subscript — before any
mutation — so the registry and the persisted store are left exactly as they
were. -/
theorem add_citation_unknown_content_type (reg : Registry) (c : Citation)
    (q now : String) (h : c.content_type ∉ (["paper", "video", "podcast"] : List String)) :
    add_citation reg c q now = Except.error ("KeyError: " ++ c.content_type ++ "s") ∧
    addStep reg c q now = reg := by
  have hm := registryMap_append_s_none reg c.content_type h
  refine ⟨?_, ?_⟩
  · simp only [add_citation, hm]
  · simp only [addStep, add_citation, hm]

/-- Witness for `add_citation_unknown_content_type` at `content_type = "book"`. -/
theorem add_citation_unknown_content_type_witness :
    (("book" : String) ∉ (["paper", "video", "podcast"] : List String)) ∧
    (add_citation emptyRegistry ⟨"book", "T", [], "u"⟩ "q" "t" =
      Except.error ("KeyError: " ++ "book" ++ "s") ∧
     addStep emptyRegistry ⟨"book", "T", [], "u"⟩ "q" "t" = emptyRegistry) :=
  ⟨by decide, add_citation_unknown_content_type emptyRegistry ⟨"book", "T", [], "u"⟩
    "q" "t" (by decide)⟩

/-- C7: `index_document` (connected) writes the input document with its
embedding regenerated from the canonical text window — title, a space, the
abstract, a space, then the first 1000 characters of the content — never
trusting a caller-supplied embedding (any supplied value leads to the same
write), and mutating no field other than `embedding`. Determinism is
inherited from `encode` being a function of exactly this window. -/
theorem index_document_embedding_frame {α : Type} (encode : String → α)
    (idx : String) (d : OpenSearchManager.Document α) :
    (∃ d2, index_document true encode idx d = some d2 ∧
      d2.embedding = some (encode (d.title.getD "" ++ " " ++ d.abstract.getD "" ++ " " ++
        (d.content.getD "").take 1000)) ∧
      d2.content_type = d.content_type ∧ d2.title = d.title ∧
      d2.abstract = d.abstract ∧ d2.content = d.content ∧
      d2.transcript = d.transcript ∧ d2.authors = d.authors ∧
      d2.url = d.url ∧ d2.publication_date = d.publication_date) ∧
    (∀ e : Option α, index_document true encode idx { d with embedding := e } =
      index_document true encode idx { d with embedding := none }) := by
  refine ⟨⟨_, rfl, rfl, rfl, rfl, rfl, rfl, rfl, rfl, rfl, rfl⟩, fun e => rfl⟩

/-- C3 (counterexample): a three-document batch whose middle document is
malformed (no `title`), with the bulk helper raising as
`opensearchpy.helpers.bulk` does by default (`raise_on_error=True`) when any
document of the batch is rejected: `bulk_index` lands in its `except` branch
and returns `None` — it fails the whole batch and reports no
`succeeded == N-1 = 2, failed == 1` counts to the caller. -/
theorem bulk_index_malformed_batch_returns_none :
    bulk_index true (fun s => s.length) (fun _ => BulkOutcome.raised)
      "research_assistant"
      [⟨some "paper", some "Doc A", none, some "aaa", none, none, none, none, none⟩,
       ⟨some "paper", none, none, some "bbb", none, none, none, none, none⟩,
       ⟨some "paper", some "Doc C", none, some "ccc", none, none, none, none, none⟩] =
      none ∧ (none : Option Nat) ≠ some 2 := by
  exact ⟨rfl, by decide⟩

/-- C3 (amended): `bulk_index` builds one action per document, in order, and
returns only what the helper reports as the success count — the failed count
is logged, never returned — and returns `None` whenever the helper raises
(which, with the library default `raise_on_error=True`, is whenever any
document in the batch is rejected). -/
theorem bulk_index_success_count_only {α : Type} (encode : String → α)
    (helper : List (OpenSearchManager.Document α) → BulkOutcome) (idx : String)
    (docs : List (OpenSearchManager.Document α)) :
    (bulkActions encode docs).length = docs.length ∧
    (∀ s f, helper (bulkActions encode docs) = BulkOutcome.counts s f →
      bulk_index true encode helper idx docs = some s) ∧
    (helper (bulkActions encode docs) = BulkOutcome.raised →
      bulk_index true encode helper idx docs = none) := by
  refine ⟨by simp [bulkActions], fun s f h => ?_, fun h => ?_⟩
  · unfold bulk_index
    rw [if_neg (by simp), h]
  · unfold bulk_index
    rw [if_neg (by simp), h]

/-- Witness for `bulk_index_success_count_only`: a helper reporting
`(succeeded, failed) = (2, 1)` on a three-document batch makes `bulk_index`
return `some 2` — the failed count is dropped. -/
theorem bulk_index_success_count_only_witness :
    bulk_index true (fun s : String => s.length)
      (fun _ => BulkOutcome.counts 2 1) "research_assistant"
      [⟨some "paper", some "Doc A", none, some "aaa", none, none, none, none, none⟩,
       ⟨some "paper", none, none, some "bbb", none, none, none, none, none⟩,
       ⟨some "paper", some "Doc C", none, some "ccc", none, none, none, none, none⟩] =
      some 2 :=
  (bulk_index_success_count_only (fun s : String => s.length)
    (fun _ => BulkOutcome.counts 2 1) "research_assistant" _).2.1 2 1 rfl

/-- C4 (counterexample): the status returned for an unavailable backend and
the status returned for a bulk batch that partially fails (the helper raises,
as it does by default when some documents are rejected) are the same value,
`None` — they are not distinguishable; `index_document` on an unavailable
backend returns the same `None` as well. -/
theorem unavailable_indistinguishable_from_partial_failure :
    bulk_index false (fun s : String => s.length)
        (fun _ => BulkOutcome.counts 3 0) "research_assistant"
        [⟨some "paper", some "Doc A", none, some "aaa", none, none, none, none, none⟩] =
      bulk_index true (fun s : String => s.length)
        (fun _ => BulkOutcome.raised) "research_assistant"
        [⟨some "paper", some "Doc A", none, some "aaa", none, none, none, none, none⟩] ∧
    index_document false (fun s : String => s.length) "research_assistant"
        ⟨some "paper", some "Doc A", none, some "aaa", none, none, none, none, none⟩ =
      none := by
  exact ⟨rfl, rfl⟩

/-- C4 (amended): when the backend connection is unavailable both
`index_document` and `bulk_index` return immediately with `None` and perform
no writes (the helper is never consulted); but that same `None` is also what
`bulk_index` returns when the bulk helper raises on a partially failing
batch, so the two conditions are not distinguishable from the return value. -/
theorem unavailable_returns_none_no_writes {α : Type} (encode : String → α)
    (helper helper2 : List (OpenSearchManager.Document α) → BulkOutcome)
    (idx : String) (d : OpenSearchManager.Document α)
    (docs docs2 : List (OpenSearchManager.Document α)) :
    index_document false encode idx d = none ∧
    bulk_index false encode helper idx docs = none ∧
    (helper2 (bulkActions encode docs2) = BulkOutcome.raised →
      bulk_index false encode helper idx docs =
        bulk_index true encode helper2 idx docs2) := by
  refine ⟨rfl, rfl, fun h => ?_⟩
  have h2 : bulk_index true encode helper2 idx docs2 = none := by
    unfold bulk_index
    rw [if_neg (by decide), h]
  rw [h2]
  rfl

/-- Witness for `unavailable_returns_none_no_writes` at a concrete raising
helper and singleton batch. -/
theorem unavailable_returns_none_no_writes_witness :
    index_document false (fun s : String => s.length) "research_assistant"
        ⟨some "paper", some "Doc A", none, some "aaa", none, none, none, none, none⟩ =
      none ∧
    bulk_index false (fun s : String => s.length)
        (fun _ => BulkOutcome.counts 1 0) "research_assistant"
        [⟨some "paper", some "Doc A", none, some "aaa", none, none, none, none, none⟩] =
      none ∧
    ((fun _ => BulkOutcome.raised :
        List (OpenSearchManager.Document Nat) → BulkOutcome)
          (bulkActions (fun s : String => s.length)
            [⟨some "paper", none, none, some "bbb", none, none, none, none, none⟩]) =
        BulkOutcome.raised →
      bulk_index false (fun s : String => s.length)
          (fun _ => BulkOutcome.counts 1 0) "research_assistant"
          [⟨some "paper", some "Doc A", none, some "aaa", none, none, none, none, none⟩] =
        bulk_index true (fun s : String => s.length)
          (fun _ => BulkOutcome.raised) "research_assistant"
          [⟨some "paper", none, none, some "bbb", none, none, none, none, none⟩]) :=
  unavailable_returns_none_no_writes (fun s : String => s.length)
    (fun _ => BulkOutcome.counts 1 0) (fun _ => BulkOutcome.raised)
    "research_assistant" _ _ _

theorem matchResults_eq_find {σ1 : Type} (m : PyMatch)
    (results : List (SearchResult σ1)) :
    matchResults m results =
      ((results.find? fun r => citation_matches_source m r.source).map
        fun r => mkCitation m r.source).toList := by
  induction results with
  | nil => rfl
  | cons r rs ih =>
      by_cases hc : citation_matches_source m r.source
      · simp [matchResults, List.find?, hc]
      · simp [matchResults, List.find?, hc, ih]

theorem flatMap_toList_eq_filterMap {A B : Type} (f : A → Option B) (l : List A) :
    (l.flatMap fun a => (f a).toList) = l.filterMap f := by
  induction l with
  | nil => rfl
  | cons a l ih =>
      cases hf : f a with
      | none => simp [List.flatMap_cons, List.filterMap_cons, hf, ih]
      | some b => simp [List.flatMap_cons, List.filterMap_cons, hf, ih]

/-- C6: for every recognized marker (in pattern order, then occurrence
order), `extract_citations` emits at most one entry — built from the first
candidate, in the supplied order, that `citation_matches_source` accepts —
and a marker no candidate accepts contributes nothing and raises no error:
the output is exactly a `filterMap` of `find?` over the markers. -/
theorem extract_citations_first_match_spec {σ1 : Type} (response : String)
    (results : List (SearchResult σ1)) :
    extract_citations response results =
      (allMarkers response).filterMap fun m =>
        (results.find? fun r => citation_matches_source m r.source).map
          fun r => mkCitation m r.source := by
  unfold extract_citations
  have h1 : ∀ m : PyMatch, matchResults m results =
      ((results.find? fun r => citation_matches_source m r.source).map
        fun r => mkCitation m r.source).toList :=
    fun m => matchResults_eq_find m results
  simp only [h1]
  exact flatMap_toList_eq_filterMap _ _

unseal findAY findTagged in
/-- C5 (counterexample): a `[Video: <label>]` marker resolves to a candidate
even when the label is NOT a substring of the candidate's title: the code
tests `citation_match[0]`, which for the one-group video/podcast patterns is
only the first character of the label. Label "Terrific" is no substring of
"Transformer Explained", yet the marker resolves to that video. -/
theorem video_marker_first_char_collision :
    extract_citations "See [Video: Terrific]."
        ([⟨(), ⟨"video", "Transformer Explained", [], "http://youtube/1"⟩⟩] :
          List (SearchResult Unit)) =
      [⟨PyMatch.str1 "Terrific",
        ⟨"video", "Transformer Explained", [], "http://youtube/1"⟩,
        "video", "http://youtube/1", "Transformer Explained"⟩] ∧
    strIn "Terrific" "Transformer Explained" = false := by
  constructor
  · decide
  · decide

unseal findAY findTagged in
/-- C5 (amended): resolving a `[Video: ...]` or `[Podcast: ...]` marker
consults only the FIRST character of the label (as a one-character
substring test against the candidate's title): labels sharing a first
character resolve identically. On the spec's concrete scenario the result is
nevertheless exactly the expected two entries: the `[Vaswani, 2017]` marker
resolves to the paper, `[Video: Transformer Explained]` to the video, and
the podcast is untouched. -/
theorem citation_label_resolution_first_char :
    (∀ (label label2 : String) (src : Source), label.take 1 = label2.take 1 →
      citation_matches_source (PyMatch.str1 label) src =
        citation_matches_source (PyMatch.str1 label2) src) ∧
    extract_citations
        "Self-attention enables parallelism [Vaswani, 2017]. See also [Video: Transformer Explained]."
        ([⟨(), ⟨"paper", "Attention Is All You Need", ["Vaswani"], "http://arxiv.org/1706.03762"⟩⟩,
          ⟨(), ⟨"video", "Transformer Explained", [], "http://youtube/1"⟩⟩,
          ⟨(), ⟨"podcast", "AI Podcast Episode 5", [], "http://pod/5"⟩⟩] :
          List (SearchResult Unit)) =
      [⟨PyMatch.tuple2 "Vaswani" "2017",
        ⟨"paper", "Attention Is All You Need", ["Vaswani"], "http://arxiv.org/1706.03762"⟩,
        "paper", "http://arxiv.org/1706.03762", "Attention Is All You Need"⟩,
       ⟨PyMatch.str1 "Transformer Explained",
        ⟨"video", "Transformer Explained", [], "http://youtube/1"⟩,
        "video", "http://youtube/1", "Transformer Explained"⟩] := by
  constructor
  · intro label label2 src h
    simp only [citation_matches_source, pyIndex0, h]
  · decide

theorem bibtexBlock_eq_spec (cid : String) (p : CitationEntry) :
    bibtexBlock cid p = bibtexEntrySpec cid p := by
  cases hp : p.authors with
  | none =>
      have h1 : String.intercalate " and " ["Unknown"] = "Unknown" := rfl
      simp [bibtexBlock, bibtexEntrySpec, hp, h1]
  | some l => simp [bibtexBlock, bibtexEntrySpec, hp]

/-- C8: the BibTeX export renders one `@article` block per paper citation —
and only paper citations (videos, podcasts and the history never influence
the output) — keyed by the citation id, with the `author` field the authors
joined by " and " ("Unknown" when the entry has no authors), the `year`
field the first four characters of `first_used`, and the `url` field the
stored url; on the spec's one-paper registry the output is the exact
expected block. -/
theorem export_bibtex_renders_papers :
    (∀ reg : Registry, export_bibliography reg "bibtex" =
      String.intercalate "\n\n" (reg.papers.map fun p => bibtexEntrySpec p.1 p.2)) ∧
    (∀ (papers : CitationMap) (vids pods vids2 pods2 : CitationMap)
        (hist hist2 : List UsageEvent),
      export_bibliography ⟨papers, vids, pods, hist⟩ "bibtex" =
        export_bibliography ⟨papers, vids2, pods2, hist2⟩ "bibtex") ∧
    (export_bibliography
          ⟨[("c1", ⟨"X", some ["A", "B"], some "http://x",
              some "2024-05-01T10:00:00", 1, [⟨"q", "t"⟩]⟩)], [], [], []⟩ "bibtex" =
        "@article\x7bc1,\n    title=\x7bX\x7d,\n    author=\x7bA and B\x7d,\n    year=\x7b2024\x7d,\n    url=\x7bhttp://x\x7d\n\x7d") := by
  refine ⟨fun reg => ?_, fun papers vids pods vids2 pods2 hist hist2 => rfl, ?_⟩
  · show export_bibtex reg = _
    unfold export_bibtex
    exact congrArg (String.intercalate "\n\n")
      (List.map_congr_left fun p _ => bibtexBlock_eq_spec p.1 p.2)
  · have htake : (("2024-05-01T10:00:00" : String)).take 4 = "2024" := by decide
    unfold export_bibliography
    rw [if_pos rfl]
    unfold export_bibtex
    rw [List.map_cons, List.map_nil]
    have hsing : ∀ x : String, String.intercalate "\n\n" [x] = x := fun x => rfl
    rw [hsing]
    unfold bibtexBlock
    simp only [Option.getD_some]
    rw [htake]
    rfl

/-- Witness for `citation_label_resolution_first_char`: two labels sharing
the first character "T" resolve identically against the video source. -/
theorem citation_label_resolution_first_char_witness :
    ("Terrific" : String).take 1 = ("Transformer" : String).take 1 ∧
    citation_matches_source (PyMatch.str1 "Terrific")
        ⟨"video", "Transformer Explained", [], "http://youtube/1"⟩ =
      citation_matches_source (PyMatch.str1 "Transformer")
        ⟨"video", "Transformer Explained", [], "http://youtube/1"⟩ :=
  ⟨by decide, citation_label_resolution_first_char.1 "Terrific" "Transformer"
    ⟨"video", "Transformer Explained", [], "http://youtube/1"⟩ (by decide)⟩

end Claims

namespace CitationTracker

/-! ### Decoding inverts encoding, member by member -/

theorem recFromJson_recToJson (r : UsageRecord) :
    recFromJson (recToJson r) = some r := by
  rw [recToJson]
  simp [recFromJson, objGet, asStr]

theorem decodeList_recFromJson (qs : List UsageRecord) :
    decodeList recFromJson (qs.map recToJson) = some qs := by
  induction qs with
  | nil => rfl
  | cons q t ih =>
      rw [List.map_cons, decodeList, recFromJson_recToJson q, ih]

theorem decodeList_asStr (l : List String) :
    decodeList asStr (l.map PyJson.Json.str) = some l := by
  induction l with
  | nil => rfl
  | cons a t ih => rw [List.map_cons, decodeList, asStr, ih]

theorem entryFromJson_entryToJson (e : CitationEntry) :
    entryFromJson (entryToJson e) = some e := by
  obtain ⟨t, a, u, fu, uc, qs⟩ := e
  rw [entryToJson]
  cases a <;> cases u <;> cases fu <;>
    simp [entryFromJson, objGet, optField, asStr, asStrList, asNat,
      decodeList_asStr, decodeList_recFromJson]

theorem eventFromJson_eventToJson (ev : UsageEvent) :
    eventFromJson (eventToJson ev) = some ev := by
  rw [eventToJson]
  simp [eventFromJson, objGet, asStr]

theorem mapFromJson_map (m : CitationMap) :
    mapFromJson (PyJson.Json.obj (m.map fun p => (p.1, entryToJson p.2))) =
      some m := by
  rw [mapFromJson]
  induction m with
  | nil => rfl
  | cons p t ih =>
      obtain ⟨k, e⟩ := p
      rw [List.map_cons, decodeMap, entryFromJson_entryToJson e, ih]

theorem decodeList_event (h : List UsageEvent) :
    decodeList eventFromJson (h.map eventToJson) = some h := by
  induction h with
  | nil => rfl
  | cons ev t ih =>
      rw [List.map_cons, decodeList, eventFromJson_eventToJson ev, ih]

theorem registryFromJson_registryToJson (reg : Registry) :
    registryFromJson (registryToJson reg) = some reg := by
  obtain ⟨p, v, pc, h⟩ := reg
  rw [registryToJson]
  simp [registryFromJson, objGet, mapFromJson_map, decodeList_event]

end CitationTracker

namespace Claims

/-- C9: every registry state reachable by a sequence of `add_citation` calls,
serialized by `export_bibliography` with the `json` format (the same
`json.dumps(self.citations, indent=2)` text `save_citations` writes to the
store file), is reproduced exactly — the papers, videos and podcasts maps and
the `usage_history` sequence — by re-parsing the emitted string with
`json.loads` and reading the registry structure back off the parsed value. -/
theorem export_json_roundtrip :
    ∀ steps : List (Citation × String × String),
      (PyJson.loads (export_bibliography
          (steps.foldl (fun r s => addStep r s.1 s.2.1 s.2.2) emptyRegistry)
          "json")).bind registryFromJson =
        some (steps.foldl (fun r s => addStep r s.1 s.2.1 s.2.2) emptyRegistry) := by
  intro steps
  rw [export_bibliography, if_neg (by decide), if_neg (by decide),
    PyJson.loads_dumps]
  exact registryFromJson_registryToJson _

end Claims
